import Mathlib

/-!
Verification of the issue classification and aggregation pipeline of
`fetch_jira.py`: a shallow embedding of the Python data model (JSON-like
values, dictionary lookup, truthiness, string upper-casing, iteration,
exceptions modelled with `Except`) together with the three functions under
scrutiny, `detect_platform`, `build_dashboard_data` and
`build_detailed_data`, and theorems settling the frozen claims.
-/

set_option maxHeartbeats 1000000

namespace VfDash

/-- JSON-like values as delivered by the issue source and manipulated by the
Python code: null, booleans, (integer) numbers, strings, arrays and objects
(objects keep insertion order, as Python dicts do). -/
inductive JVal where
  | null : JVal
  | bool : Bool → JVal
  | num : Int → JVal
  | str : String → JVal
  | arr : List JVal → JVal
  | obj : List (String × JVal) → JVal

mutual

/-- Structural (Python `==`) equality on JSON values. -/
def beqJ : JVal → JVal → Bool
  | .null, .null => true
  | .bool a, .bool b => a = b
  | .num a, .num b => a = b
  | .str a, .str b => a = b
  | .arr a, .arr b => beqL a b
  | .obj a, .obj b => beqO a b
  | _, _ => false

/-- Equality on value lists. -/
def beqL : List JVal → List JVal → Bool
  | [], [] => true
  | a :: as, b :: bs => beqJ a b && beqL as bs
  | _, _ => false

/-- Equality on object entry lists. -/
def beqO : List (String × JVal) → List (String × JVal) → Bool
  | [], [] => true
  | (k₁, v₁) :: as, (k₂, v₂) :: bs => k₁ = k₂ && beqJ v₁ v₂ && beqO as bs
  | _, _ => false

end

mutual

theorem beqJ_iff : ∀ a b : JVal, beqJ a b = true ↔ a = b
  | .null, .null => by simp [beqJ]
  | .bool a, .bool b => by simp [beqJ]
  | .num a, .num b => by simp [beqJ]
  | .str a, .str b => by simp [beqJ]
  | .arr a, .arr b => by
      simp only [beqJ, JVal.arr.injEq]
      exact beqL_iff a b
  | .obj a, .obj b => by
      simp only [beqJ, JVal.obj.injEq]
      exact beqO_iff a b
  | .null, .bool _ | .null, .num _ | .null, .str _ | .null, .arr _ | .null, .obj _
  | .bool _, .null | .bool _, .num _ | .bool _, .str _ | .bool _, .arr _ | .bool _, .obj _
  | .num _, .null | .num _, .bool _ | .num _, .str _ | .num _, .arr _ | .num _, .obj _
  | .str _, .null | .str _, .bool _ | .str _, .num _ | .str _, .arr _ | .str _, .obj _
  | .arr _, .null | .arr _, .bool _ | .arr _, .num _ | .arr _, .str _ | .arr _, .obj _
  | .obj _, .null | .obj _, .bool _ | .obj _, .num _ | .obj _, .str _ | .obj _, .arr _ => by
      simp [beqJ]

theorem beqL_iff : ∀ a b : List JVal, beqL a b = true ↔ a = b
  | [], [] => by simp [beqL]
  | a :: as, b :: bs => by
      simp only [beqL, Bool.and_eq_true, List.cons.injEq]
      rw [beqJ_iff a b, beqL_iff as bs]
  | [], _ :: _ => by simp [beqL]
  | _ :: _, [] => by simp [beqL]

theorem beqO_iff : ∀ a b : List (String × JVal), beqO a b = true ↔ a = b
  | [], [] => by simp [beqO]
  | (k₁, v₁) :: as, (k₂, v₂) :: bs => by
      simp [beqO, beqJ_iff v₁ v₂, beqO_iff as bs, and_assoc]
  | [], _ :: _ => by simp [beqO]
  | _ :: _, [] => by simp [beqO]

end

instance : DecidableEq JVal := fun a b =>
  decidable_of_iff (beqJ a b = true) (beqJ_iff a b)

instance {ε α : Type} [DecidableEq ε] [DecidableEq α] : DecidableEq (Except ε α) := fun a b =>
  match a, b with
  | .ok x, .ok y => decidable_of_iff (x = y) (by simp)
  | .error x, .error y => decidable_of_iff (x = y) (by simp)
  | .ok _, .error _ => isFalse (by simp)
  | .error _, .ok _ => isFalse (by simp)

/-- Python truthiness of a value (`if val:`). -/
def truthy : JVal → Bool
  | .null => false
  | .bool b => b
  | .num n => n != 0
  | .str s => s != ""
  | .arr l => !l.isEmpty
  | .obj l => !l.isEmpty

/-- A value usable as a Python dict key (hashable): everything except
lists and dicts. -/
def hashable : JVal → Bool
  | .arr _ => false
  | .obj _ => false
  | _ => true

/-- `v.get(k, dflt)`: raises `AttributeError` unless `v` is a dict. -/
def dictGet (v : JVal) (k : String) (dflt : JVal) : Except String JVal :=
  match v with
  | .obj entries =>
    match entries.lookup k with
    | some x => .ok x
    | none => .ok dflt
  | _ => .error "AttributeError: get"

/-- `v.items()`: raises unless `v` is a dict. -/
def dictItems (v : JVal) : Except String (List (String × JVal)) :=
  match v with
  | .obj entries => .ok entries
  | _ => .error "AttributeError: items"

/-- ASCII upper-casing of one character (the fragment of Python's
`str.upper` exercised by this pipeline). -/
def upChar (c : Char) : Char :=
  if 97 ≤ c.toNat ∧ c.toNat ≤ 122 then Char.ofNat (c.toNat - 32) else c

/-- ASCII upper-casing of a string. -/
def upperStr (s : String) : String := String.mk (s.data.map upChar)

/-- `s.upper()`: raises `AttributeError` unless the value is a string. -/
def pyUpper (v : JVal) : Except String String :=
  match v with
  | .str s => .ok (upperStr s)
  | _ => .error "AttributeError: upper"

/-- Extract the underlying string of a value that is about to be used as a
string (e.g. the receiver of `.upper()` or an element of `str.join`);
raises otherwise. -/
def pyStrVal (v : JVal) : Except String String :=
  match v with
  | .str s => .ok s
  | _ => .error "TypeError: expected str"

/-- `for x in v`: iterating a list yields its items, a string its
characters, a dict its keys; anything else raises `TypeError`. -/
def pyIter (v : JVal) : Except String (List JVal) :=
  match v with
  | .arr l => .ok l
  | .str s => .ok (s.data.map (fun c => .str (String.mk [c])))
  | .obj l => .ok (l.map (fun p => .str p.1))
  | _ => .error "TypeError: not iterable"

/-- `v[:10]`: slicing works on strings and lists, raises on other values. -/
def pySlice10 (v : JVal) : Except String JVal :=
  match v with
  | .str s => .ok (.str (String.mk (s.data.take 10)))
  | .arr l => .ok (.arr (l.take 10))
  | _ => .error "TypeError: unsubscriptable"

/-- Guard modelling Python's hashability requirement when a value is used
as a dict key. -/
def hguard (v : JVal) : Except String Unit :=
  if hashable v then .ok () else .error "TypeError: unhashable"

/-- `needle` occurs as a prefix of `hay` (character lists). -/
def isPrefixL : List Char → List Char → Bool
  | [], _ => true
  | _ :: _, [] => false
  | a :: as, b :: bs => a = b && isPrefixL as bs

/-- `needle in hay` for character lists: substring containment. -/
def containsL (needle : List Char) : List Char → Bool
  | [] => isPrefixL needle []
  | c :: t => isPrefixL needle (c :: t) || containsL needle t

/-- Python's `needle in hay` on strings. -/
def strContains (hay needle : String) : Bool :=
  containsL needle.data hay.data

/-- Python's `s.startswith(pre)`. -/
def startsW (s pre : String) : Bool :=
  isPrefixL pre.data s.data

/-- Lookup in an association list (Python dict read, first occurrence),
parameterised by the key comparison. -/
def alook {κ α : Type} (eq : κ → κ → Bool) : List (κ × α) → κ → Option α
  | [], _ => none
  | p :: t, k => if eq p.1 k then some p.2 else alook eq t k

/-- Update in an association list (Python `d[k] = v`): replace the value at
the first matching key, keeping the original key object, or append a new
binding at the end — exactly a Python dict's insertion-order behaviour. -/
def aset {κ α : Type} (eq : κ → κ → Bool) : List (κ × α) → κ → α → List (κ × α)
  | [], k, v => [(k, v)]
  | p :: t, k, v => if eq p.1 k then (p.1, v) :: t else p :: aset eq t k v

/-- String key comparison. -/
def strEq (a b : String) : Bool := a = b

/-- The static platform list of the dashboard (`PLATFORMS`). -/
def PLATFORMS : List String :=
  ["ANDROID", "ATV", "CMS", "CMS Adaptor", "CMS Dashboard", "DishIT",
   "IOS", "Kaltura", "LG_TV", "Mobile", "SAM_TV", "WEB"]

/-- The tracked statuses of the dashboard (`STATUSES`). -/
def STATUSES : List String :=
  ["OPEN", "IN PROGRESS", "REOPENED", "IN REVIEW", "ISSUE ACCEPTED", "PARKED"]

/-- The ordered pattern table of `detect_platform` (`platform_patterns`),
in Python dict insertion order. -/
def platform_patterns : List (String × List String) :=
  [("CMS Adaptor", ["CMS ADAPTOR", "CMS_ADAPTOR", "CMSADAPTOR"]),
   ("CMS Dashboard", ["CMS DASHBOARD", "CMS_DASHBOARD", "CMSDASHBOARD"]),
   ("Kaltura", ["KALTURA"]),
   ("DishIT", ["DISHIT", "DISH IT", "DISH_IT"]),
   ("LG_TV", ["LG_TV", "LGTV", "LG TV", "WEBOS", "LG-TV"]),
   ("SAM_TV", ["SAM_TV", "SAMTV", "SAM TV", "SAMSUNG TV", "SAMSUNG_TV", "TIZEN", "SAM-TV"]),
   ("ATV", ["ATV", "ANDROID TV", "ANDROID_TV", "ANDROIDTV", "FIRE TV", "FIRETV", "FIRE_TV"]),
   ("Mobile", ["MOBILE"]),
   ("ANDROID", ["ANDROID"]),
   ("IOS", ["IOS", "APPLE", "IPHONE", "IPAD"]),
   ("WEB", ["WEB"]),
   ("CMS", ["CMS"])]

/-- `[l.upper() for l in fields.get('labels', [])]`. -/
def labelsOf (fields : JVal) : Except String (List String) := do
  let lv ← dictGet fields "labels" (.arr [])
  let items ← pyIter lv
  items.mapM pyUpper

/-- `[c.get('name', '').upper() for c in fields.get('components', [])]`. -/
def componentsOf (fields : JVal) : Except String (List String) := do
  let cv ← dictGet fields "components" (.arr [])
  let items ← pyIter cv
  items.mapM (fun c => do
    let n ← dictGet c "name" (.str "")
    pyUpper n)

/-- `(fields.get('summary') or '').upper()`. -/
def summaryOf (fields : JVal) : Except String String := do
  let sv ← dictGet fields "summary" .null
  pyUpper (if truthy sv then sv else .str "")

/-- The custom-field values contributed by one truthy `customfield_*`
value: a string is upper-cased; a dict contributes `value` (or, when that
is falsy, `name`) upper-cased; a list applies the same rule per element,
skipping elements of any other type; other types contribute nothing. -/
def extractCustom (val : JVal) : Except String (List String) :=
  match val with
  | .str s => .ok [upperStr s]
  | .obj es => do
      let v ← dictGet (.obj es) "value" (.str "")
      let n ← dictGet (.obj es) "name" (.str "")
      let u ← pyUpper (if truthy v then v else n)
      .ok [u]
  | .arr items => items.foldlM (fun acc item =>
      match item with
      | .str s => .ok (acc ++ [upperStr s])
      | .obj es => do
          let v ← dictGet (.obj es) "value" (.str "")
          let n ← dictGet (.obj es) "name" (.str "")
          let u ← pyUpper (if truthy v then v else n)
          .ok (acc ++ [u])
      | _ => .ok acc) []
  | _ => .ok []

/-- The `custom_vals` loop of `detect_platform`: every truthy
`customfield_*` entry of `fields`, in iteration order. -/
def custom_vals_of (fields : JVal) : Except String (List String) := do
  let items ← dictItems fields
  items.foldlM (fun acc kv =>
    if startsW kv.1 "customfield_" && truthy kv.2 then do
      let vs ← extractCustom kv.2
      pure (acc ++ vs)
    else pure acc) []

/-- The upper-cased corpus `all_text` of `detect_platform`:
`' '.join(labels + components + custom_vals + [summary])`. -/
def all_text_of (issue : JVal) : Except String String := do
  let fields ← dictGet issue "fields" (.obj [])
  let labels ← labelsOf fields
  let components ← componentsOf fields
  let summary ← summaryOf fields
  let custom_vals ← custom_vals_of fields
  pure (String.intercalate " " (labels ++ components ++ custom_vals ++ [summary]))

/-- The pattern dispatch of `detect_platform`: the first platform, in
table order, one of whose patterns occurs in the corpus. -/
def firstPlatform (all_text : String) : Option String :=
  (platform_patterns.find? (fun pp => pp.2.any (fun pat => strContains all_text pat))).map (·.1)

/-- `detect_platform(issue)`: build the corpus, return the first matching
platform or `none`. -/
def detect_platform (issue : JVal) : Except String (Option String) := do
  let all_text ← all_text_of issue
  pure (firstPlatform all_text)

/-- The accumulator of `build_dashboard_data`: the platform × status
matrix plus the four diagnostic counters and the per-status bug breakdown
(all local variables of the Python function). -/
structure DashState where
  matrix : List (String × List (String × Int))
  total_bugs : Int
  matched_counted : Int
  unmatched_platforms : Int
  unmatched_status : Int
  bug_status_breakdown : List (String × Int)
deriving DecidableEq

/-- A fresh all-zero status row (`{s: 0 for s in STATUSES}`). -/
def zeroRow : List (String × Int) := STATUSES.map (fun s => (s, 0))

/-- The seeded state before any issue is processed: every static platform
mapped to an all-zero row, counters at zero. -/
def initDash : DashState :=
  { matrix := PLATFORMS.map (fun p => (p, zeroRow)),
    total_bugs := 0, matched_counted := 0, unmatched_platforms := 0,
    unmatched_status := 0, bug_status_breakdown := [] }

/-- The per-issue local variables of the `build_dashboard_data` loop:
status name, issue type name (both necessarily strings, since the code
upper-cases them) and the classified platform. -/
structure DashInfo where
  status_name : String
  issue_type : String
  platform : Option String
deriving DecidableEq

/-- Extraction of the per-issue locals of `build_dashboard_data`, in
source evaluation order: field gets, `detect_platform`, then the two
`.upper()` calls (which require strings). -/
def dashInfoOf (issue : JVal) : Except String DashInfo := do
  let fields ← dictGet issue "fields" (.obj [])
  let sv ← dictGet fields "status" (.obj [])
  let status_nameV ← dictGet sv "name" (.str "")
  let tv ← dictGet fields "issuetype" (.obj [])
  let issue_typeV ← dictGet tv "name" (.str "")
  let platform ← detect_platform issue
  let status_name ← pyStrVal status_nameV
  let issue_type ← pyStrVal issue_typeV
  pure { status_name := status_name, issue_type := issue_type, platform := platform }

/-- The cell increment on an already-extended matrix `m`
(`matrix[actual_platform][status_upper] += 1`): `KeyError` if the key or
the status is missing (never reachable from the seeded state). -/
def matrixBumpGo (m : List (String × List (String × Int))) (ap su : String) :
    Except String (List (String × List (String × Int))) :=
  match alook strEq m ap with
  | none => .error "KeyError"
  | some row =>
    match alook strEq row su with
    | none => .error "KeyError"
    | some c => .ok (aset strEq m ap (aset strEq row su (c + 1)))

/-- The matrix mutation of the matched-and-counted branch: create the
`actual_platform` zero-row on demand if the key is new, then increment the
cell at `(actual_platform, status_upper)`. -/
def matrixBump (matrix : List (String × List (String × Int))) (ap su : String) :
    Except String (List (String × List (String × Int))) :=
  matrixBumpGo (if (alook strEq matrix ap).isSome then matrix
                else matrix ++ [(ap, zeroRow)]) ap su

/-- The state update of one `build_dashboard_data` loop iteration: skip
non-bugs; for bugs, count, record the status breakdown, and take exactly
one of the three diagnostic branches. -/
def dashApply (st : DashState) (d : DashInfo) : Except String DashState :=
  let status_upper := upperStr d.status_name
  if upperStr d.issue_type = "BUG" then
    let st1 := { st with
      total_bugs := st.total_bugs + 1,
      bug_status_breakdown :=
        aset strEq st.bug_status_breakdown d.status_name
          ((alook strEq st.bug_status_breakdown d.status_name).getD 0 + 1) }
    if status_upper ∈ STATUSES then
      match matrixBump st1.matrix (d.platform.getD "Unknown") status_upper with
      | .error e => .error e
      | .ok m' => .ok { st1 with matrix := m', matched_counted := st1.matched_counted + 1 }
    else if d.platform.isSome then
      .ok { st1 with unmatched_status := st1.unmatched_status + 1 }
    else if d.platform.isNone then
      .ok { st1 with unmatched_platforms := st1.unmatched_platforms + 1 }
    else
      .ok st1
  else
    .ok st

/-- One `build_dashboard_data` loop iteration. -/
def dashStep (st : DashState) (issue : JVal) : Except String DashState := do
  let d ← dashInfoOf issue
  dashApply st d

/-- `build_dashboard_data(issues)` including its diagnostic counters. -/
def build_dashboard_state (issues : List JVal) : Except String DashState :=
  issues.foldlM dashStep initDash

/-- `build_dashboard_data(issues)`: the function's return value (the
matrix; the counters are only printed). -/
def build_dashboard_data (issues : List JVal) :
    Except String (List (String × List (String × Int))) :=
  (build_dashboard_state issues).map (fun st => st.matrix)

/-- The per-issue summary dict (`item`) appended to the type buckets by
`build_detailed_data`, with the source's key order. -/
structure IssueItem where
  key : JVal
  summary : JVal
  status : JVal
  priority : JVal
  assignee : JVal
  platform : String
  created : JVal
  updated : JVal
  duedate : JVal
  sprint : JVal
  type : JVal
  fixversion : JVal
deriving DecidableEq

/-- An `assignee_workload` bucket
(`{'bugs': 0, 'tasks': 0, 'subtasks': 0, 'stories': 0, 'total': 0}`). -/
structure Workload where
  bugs : Int
  tasks : Int
  subtasks : Int
  stories : Int
  total : Int
deriving DecidableEq

/-- A fresh workload bucket. -/
def wlZero : Workload := { bugs := 0, tasks := 0, subtasks := 0, stories := 0, total := 0 }

/-- A `sprints` bucket. -/
structure SprintBucket where
  bugs : Int
  tasks : Int
  subtasks : Int
  stories : Int
  total : Int
  statuses : List (JVal × Int)
deriving DecidableEq

/-- A fresh sprint bucket. -/
def sbZero : SprintBucket :=
  { bugs := 0, tasks := 0, subtasks := 0, stories := 0, total := 0, statuses := [] }

/-- The compact per-issue summary appended to a release bucket's
`issues` list. -/
structure RelIssue where
  key : JVal
  summary : JVal
  status : JVal
  type : JVal
  priority : JVal
  assignee : JVal
  platform : String
deriving DecidableEq

/-- A `releases` bucket: metadata captured at creation plus counters,
status breakdown and issue list. -/
structure ReleaseBucket where
  released : JVal
  releaseDate : JVal
  description : JVal
  bugs : Int
  tasks : Int
  subtasks : Int
  stories : Int
  total : Int
  statuses : List (JVal × Int)
  issues : List RelIssue
deriving DecidableEq

/-- One truthy-named fix-version of an issue, with the metadata the code
would freeze into a newly created release bucket. -/
structure RelPair where
  vname : JVal
  released : JVal
  releaseDate : JVal
  description : JVal
deriving DecidableEq

/-- The `detailed` accumulator of `build_detailed_data`, with the
source's key order. -/
structure DetState where
  bugs : List IssueItem
  tasks : List IssueItem
  subtasks : List IssueItem
  stories : List IssueItem
  sprints : List (JVal × SprintBucket)
  releases : List (JVal × ReleaseBucket)
  assignee_workload : List (JVal × Workload)
  priority_breakdown : List (JVal × Int)
deriving DecidableEq

/-- The empty detailed accumulator. -/
def initDet : DetState :=
  { bugs := [], tasks := [], subtasks := [], stories := [],
    sprints := [], releases := [], assignee_workload := [], priority_breakdown := [] }

/-- The sprint-extraction scan of `build_detailed_data`: walk the custom
fields in iteration order; every object (directly, or as an element of a
list) having both a `name` and a `state` key overwrites `sprint_name`
with its `name` value.  `JVal.null` plays Python's `None`. -/
def sprint_scan (fs : List (String × JVal)) : JVal :=
  fs.foldl (fun sn kv =>
    if startsW kv.1 "customfield_" && truthy kv.2 then
      match kv.2 with
      | .arr items => items.foldl (fun sn item =>
          match item with
          | .obj es =>
            if (es.lookup "name").isSome && (es.lookup "state").isSome then
              (es.lookup "name").getD .null
            else sn
          | _ => sn) sn
      | .obj es =>
        if (es.lookup "name").isSome && (es.lookup "state").isSome then
          (es.lookup "name").getD .null
        else sn
      | _ => sn
    else sn) JVal.null

/-- The per-issue data of one `build_detailed_data` loop iteration: all
the locals of the loop body, extracted in source evaluation order,
together with the hashability guards the body's dict-key operations
impose (modelled eagerly; aborting anywhere aborts the whole build, so
only the ok/error outcome and the ok value are observable). -/
structure DetInfo where
  key : JVal
  issue_type : JVal
  status_name : JVal
  summary : JVal
  priority : JVal
  assignee : JVal
  fix_versions : List JVal
  fix_version_names : List JVal
  platform : Option String
  sprint_name : JVal
  item : IssueItem
  type_upper : String
  release_pairs : List RelPair
deriving DecidableEq

/-- One iteration of the release loop's extraction: skip falsy-named
fix-versions, otherwise record the name (a dict key, so hashable) and the
metadata reads the creation branch would perform. -/
def relPairStep (status_name : JVal) (acc : List RelPair) (fv : JVal) :
    Except String (List RelPair) := do
  let vname ← dictGet fv "name" (.str "")
  if truthy vname then do
    let _ ← hguard vname
    let released ← dictGet fv "released" (.bool false)
    let releaseDate ← dictGet fv "releaseDate" (.str "")
    let description ← dictGet fv "description" (.str "")
    let _ ← hguard status_name
    pure (acc ++ [{ vname := vname, released := released,
                    releaseDate := releaseDate, description := description : RelPair }])
  else pure acc

/-- The truthy-named fix-versions of one issue, with the metadata the
release loop would freeze at bucket creation, and the hashability
requirements of the release loop's dict keys. -/
def release_pairs_of (status_name : JVal) (fix_versions : List JVal) :
    Except String (List RelPair) :=
  fix_versions.foldlM (relPairStep status_name) []

/-- The per-issue record assembled at the end of the loop body's
extraction phase (`item` plus the remaining locals). -/
def dRec (key issue_type status_name summary priority assignee : JVal)
    (fix_versions fix_version_names : List JVal) (platform : Option String)
    (fitems : List (String × JVal)) (createdT updatedT duedateT fixversion : JVal)
    (type_upper : String) (release_pairs : List RelPair) : DetInfo :=
  { key := key
    issue_type := issue_type
    status_name := status_name
    summary := summary
    priority := priority
    assignee := assignee
    fix_versions := fix_versions
    fix_version_names := fix_version_names
    platform := platform
    sprint_name := sprint_scan fitems
    item :=
      { key := key
        summary := summary
        status := status_name
        priority := priority
        assignee := assignee
        platform := platform.getD "Unknown"
        created := createdT
        updated := updatedT
        duedate := duedateT
        sprint := if truthy (sprint_scan fitems) then sprint_scan fitems else .str "No Sprint"
        type := issue_type
        fixversion := fixversion }
    type_upper := type_upper
    release_pairs := release_pairs }

/-- `fields.get('priority', {}).get('name', 'None') if fields.get('priority') else 'None'`. -/
def priority_of (fields : JVal) : Except String JVal := do
  let pv ← dictGet fields "priority" .null
  if truthy pv then dictGet pv "name" (.str "None") else pure (JVal.str "None")

/-- `fields.get('assignee', {}).get('displayName', 'Unassigned') if fields.get('assignee') else 'Unassigned'`. -/
def assignee_of (fields : JVal) : Except String JVal := do
  let av ← dictGet fields "assignee" .null
  if truthy av then dictGet av "displayName" (.str "Unassigned")
  else pure (JVal.str "Unassigned")

/-- `v[:10] if v else ''`. -/
def dateTrunc (v : JVal) : Except String JVal :=
  if truthy v then pySlice10 v else pure (JVal.str "")

/-- `[v.get('name', '') for v in fix_versions if v.get('name')]`. -/
def fix_version_names_of (fix_versions : List JVal) : Except String (List JVal) :=
  fix_versions.foldlM (fun acc v => do
      let n ← dictGet v "name" (.str "")
      pure (if truthy n then acc ++ [n] else acc)) []

/-- `', '.join(fix_version_names) if fix_version_names else ''`. -/
def fixversion_join (names : List JVal) : Except String JVal :=
  if names.isEmpty then pure (JVal.str "")
  else do
    let ss ← names.mapM pyStrVal
    pure (JVal.str (String.intercalate ", " ss))

/-- Hashability of the `priority_breakdown` key, required for bugs only. -/
def bug_priority_guard (type_upper : String) (priority : JVal) : Except String Unit :=
  if type_upper = "BUG" then hguard priority else pure ()

/-- Hashability of the `sprints` and per-sprint status keys, required
when a truthy sprint name was resolved. -/
def sprint_guard (sprint_name status_name : JVal) : Except String Unit :=
  if truthy sprint_name then do
    let _ ← hguard sprint_name
    hguard status_name
  else pure ()

/-- Extraction of the `build_detailed_data` loop locals for one issue. -/
def detInfoOf (issue : JVal) : Except String DetInfo := do
  let fields ← dictGet issue "fields" (.obj [])
  let tv ← dictGet fields "issuetype" (.obj [])
  let issue_type ← dictGet tv "name" (.str "")
  let sv ← dictGet fields "status" (.obj [])
  let status_name ← dictGet sv "name" (.str "")
  let summary ← dictGet fields "summary" (.str "")
  let key ← dictGet issue "key" (.str "")
  let priority ← priority_of fields
  let assignee ← assignee_of fields
  let created ← dictGet fields "created" (.str "")
  let updated ← dictGet fields "updated" (.str "")
  let duedate ← dictGet fields "duedate" (.str "")
  let fvv ← dictGet fields "fixVersions" (.arr [])
  let fix_versions ← pyIter (if truthy fvv then fvv else .arr [])
  let fix_version_names ← fix_version_names_of fix_versions
  let platform ← detect_platform issue
  let fitems ← dictItems fields
  let createdT ← dateTrunc created
  let updatedT ← dateTrunc updated
  let duedateT ← dateTrunc duedate
  let fixversion ← fixversion_join fix_version_names
  let type_upper ← pyUpper issue_type
  let _ ← hguard assignee
  let _ ← bug_priority_guard type_upper priority
  let _ ← sprint_guard (sprint_scan fitems) status_name
  let release_pairs ← release_pairs_of status_name fix_versions
  pure (dRec key issue_type status_name summary priority assignee fix_versions
    fix_version_names platform fitems createdT updatedT duedateT fixversion
    type_upper release_pairs)

/-- Append the item to the one matching type bucket (or none). -/
def typeBucketAdd (st : DetState) (tu : String) (item : IssueItem) : DetState :=
  if tu = "BUG" then { st with bugs := st.bugs ++ [item] }
  else if tu = "TASK" then { st with tasks := st.tasks ++ [item] }
  else if tu = "SUB-TASK" then { st with subtasks := st.subtasks ++ [item] }
  else if tu = "STORY" then { st with stories := st.stories ++ [item] }
  else st

/-- Bump a workload bucket: the matching type counter (if any) and the
total. -/
def wlBump (w : Workload) (tu : String) : Workload :=
  let w :=
    if tu = "BUG" then { w with bugs := w.bugs + 1 }
    else if tu = "TASK" then { w with tasks := w.tasks + 1 }
    else if tu = "SUB-TASK" then { w with subtasks := w.subtasks + 1 }
    else if tu = "STORY" then { w with stories := w.stories + 1 }
    else w
  { w with total := w.total + 1 }

/-- Bump a sprint bucket: type counter (if any), total, and the status
breakdown at `status_name`. -/
def sbBump (b : SprintBucket) (tu : String) (status_name : JVal) : SprintBucket :=
  let b :=
    if tu = "BUG" then { b with bugs := b.bugs + 1 }
    else if tu = "TASK" then { b with tasks := b.tasks + 1 }
    else if tu = "SUB-TASK" then { b with subtasks := b.subtasks + 1 }
    else if tu = "STORY" then { b with stories := b.stories + 1 }
    else b
  let b := { b with total := b.total + 1 }
  let sts := aset beqJ b.statuses status_name ((alook beqJ b.statuses status_name).getD 0 + 1)
  { b with statuses := sts }

/-- Bump a release bucket: type counter (if any), total, status breakdown
and issue list; metadata untouched. -/
def rbBump (b : ReleaseBucket) (tu : String) (status_name : JVal) (entry : RelIssue) :
    ReleaseBucket :=
  let b :=
    if tu = "BUG" then { b with bugs := b.bugs + 1 }
    else if tu = "TASK" then { b with tasks := b.tasks + 1 }
    else if tu = "SUB-TASK" then { b with subtasks := b.subtasks + 1 }
    else if tu = "STORY" then { b with stories := b.stories + 1 }
    else b
  let b := { b with total := b.total + 1 }
  let sts := aset beqJ b.statuses status_name ((alook beqJ b.statuses status_name).getD 0 + 1)
  let b := { b with statuses := sts }
  { b with issues := b.issues ++ [entry] }

/-- A release bucket as freshly created from one fix-version's metadata. -/
def rbInit (p : RelPair) : ReleaseBucket :=
  { released := p.released, releaseDate := p.releaseDate, description := p.description,
    bugs := 0, tasks := 0, subtasks := 0, stories := 0, total := 0,
    statuses := [], issues := [] }

/-- The release-tracking loop of one issue: each truthy-named fix-version
creates (on first sight, freezing its metadata) or updates the bucket
keyed by its name. -/
def relFold (pairs : List RelPair) (tu : String) (status_name : JVal) (entry : RelIssue)
    (rels : List (JVal × ReleaseBucket)) : List (JVal × ReleaseBucket) :=
  pairs.foldl (fun rels p =>
    let b := (alook beqJ rels p.vname).getD (rbInit p)
    aset beqJ rels p.vname (rbBump b tu status_name entry)) rels

/-- The compact summary appended to a release bucket's issue list
(`{'key': key, 'summary': summary, 'status': status_name, 'type':
issue_type, 'priority': priority, 'assignee': assignee, 'platform':
platform or 'Unknown'}`). -/
def relEntry (d : DetInfo) : RelIssue :=
  { key := d.key
    summary := d.summary
    status := d.status_name
    type := d.issue_type
    priority := d.priority
    assignee := d.assignee
    platform := d.platform.getD "Unknown" }

/-- The (pure) state update of one `build_detailed_data` loop iteration. -/
def detApply (st : DetState) (d : DetInfo) : DetState :=
  let st := typeBucketAdd st d.type_upper d.item
  let w := wlBump ((alook beqJ st.assignee_workload d.assignee).getD wlZero) d.type_upper
  let st := { st with assignee_workload := aset beqJ st.assignee_workload d.assignee w }
  let st :=
    if d.type_upper = "BUG" then
      let pb := aset beqJ st.priority_breakdown d.priority
                  ((alook beqJ st.priority_breakdown d.priority).getD 0 + 1)
      { st with priority_breakdown := pb }
    else st
  let st :=
    if truthy d.sprint_name then
      let b := sbBump ((alook beqJ st.sprints d.sprint_name).getD sbZero)
                 d.type_upper d.status_name
      { st with sprints := aset beqJ st.sprints d.sprint_name b }
    else st
  { st with releases :=
      relFold d.release_pairs d.type_upper d.status_name (relEntry d) st.releases }

/-- One `build_detailed_data` loop iteration. -/
def detStep (st : DetState) (issue : JVal) : Except String DetState := do
  let d ← detInfoOf issue
  pure (detApply st d)

/-- `build_detailed_data(issues)`. -/
def build_detailed_data (issues : List JVal) : Except String DetState :=
  issues.foldlM detStep initDet

/-! ### Generic lemmas about the embedded dictionary operations -/

/-- A key comparison is lawful when it decides equality. -/
def LawfulKeyEq {κ : Type} (eq : κ → κ → Bool) : Prop :=
  ∀ x y, eq x y = true ↔ x = y

theorem strEq_lawful : LawfulKeyEq strEq := by
  intro x y; simp [strEq]

theorem beqJ_lawful : LawfulKeyEq beqJ := beqJ_iff

theorem ok_bind {α β : Type} (a : α) (f : α → Except String β) :
    (Except.ok a >>= f) = f a := rfl

theorem error_bind {α β : Type} (e : String) (f : α → Except String β) :
    ((Except.error e : Except String α) >>= f) = Except.error e := rfl

theorem alook_aset_self {κ α : Type} {eq : κ → κ → Bool} (heq : LawfulKeyEq eq)
    (l : List (κ × α)) (k : κ) (v : α) : alook eq (aset eq l k v) k = some v := by
  induction l with
  | nil => simp [aset, alook, (heq k k).mpr rfl]
  | cons p t ih =>
    by_cases hpk : eq p.1 k = true
    · simp [aset, hpk, alook]
    · simp only [aset, hpk]
      simp [alook, hpk, ih]

theorem alook_aset_ne {κ α : Type} {eq : κ → κ → Bool} (heq : LawfulKeyEq eq)
    (l : List (κ × α)) (k k' : κ) (v : α) (hne : k' ≠ k) :
    alook eq (aset eq l k v) k' = alook eq l k' := by
  induction l with
  | nil =>
    simp only [aset, alook]
    have : eq k k' = false := by
      rw [← Bool.not_eq_true]; intro hc; exact hne ((heq k k').mp hc).symm
    simp [this]
  | cons p t ih =>
    by_cases hpk : eq p.1 k = true
    · have hp : p.1 = k := (heq p.1 k).mp hpk
      have : eq p.1 k' = false := by
        rw [← Bool.not_eq_true]; intro hc
        exact hne (hp ▸ (heq p.1 k').mp hc).symm
      simp [aset, hpk, alook, this]
    · simp only [aset, hpk, if_neg]
      by_cases hpk' : eq p.1 k' = true
      · simp [alook, hpk']
      · simp [alook, hpk', ih]

theorem mem_aset {κ α : Type} {eq : κ → κ → Bool}
    (l : List (κ × α)) (k : κ) (v : α) (p : κ × α) (hp : p ∈ aset eq l k v) :
    p ∈ l ∨ p.2 = v := by
  induction l with
  | nil => simp [aset] at hp; simp [hp]
  | cons q t ih =>
    simp only [aset] at hp
    by_cases hq : eq q.1 k = true
    · simp [hq] at hp
      rcases hp with hp | hp
      · right; simp [hp]
      · left; simp [hp]
    · simp [hq] at hp
      rcases hp with hp | hp
      · left; simp [hp]
      · rcases ih hp with h | h
        · left; simp [h]
        · right; exact h

theorem alook_mem {κ α : Type} {eq : κ → κ → Bool}
    (l : List (κ × α)) (k : κ) (v : α) (h : alook eq l k = some v) :
    ∃ p, p ∈ l ∧ p.2 = v := by
  induction l with
  | nil => simp [alook] at h
  | cons q t ih =>
    simp only [alook] at h
    by_cases hq : eq q.1 k = true
    · simp [hq] at h; exact ⟨q, by simp, h⟩
    · simp [hq] at h
      obtain ⟨p, hp, hv⟩ := ih h
      exact ⟨p, by simp [hp], hv⟩

theorem alook_append_some {κ α : Type} {eq : κ → κ → Bool}
    (l m : List (κ × α)) (k : κ) (v : α) (h : alook eq l k = some v) :
    alook eq (l ++ m) k = some v := by
  induction l with
  | nil => simp [alook] at h
  | cons q t ih =>
    simp only [alook] at h
    by_cases hq : eq q.1 k = true
    · simp [alook, hq] at h ⊢; exact h
    · simp only [List.cons_append, alook, hq, if_neg]
      simp [hq] at h; exact ih h

theorem alook_append_none {κ α : Type} {eq : κ → κ → Bool}
    (l m : List (κ × α)) (k : κ) (h : alook eq l k = none) :
    alook eq (l ++ m) k = alook eq m k := by
  induction l with
  | nil => simp
  | cons q t ih =>
    simp only [alook] at h
    by_cases hq : eq q.1 k = true
    · simp [hq] at h
    · simp only [List.cons_append, alook, hq, if_neg]
      simp [hq] at h; exact ih h

/-- Values of an updated association list: each binding is an old one or
carries the new value. -/
theorem aset_values {κ α : Type} {eq : κ → κ → Bool}
    (l : List (κ × α)) (k : κ) (v : α) (R : α → Prop)
    (hl : ∀ p ∈ l, R p.2) (hv : R v) : ∀ p ∈ aset eq l k v, R p.2 := by
  intro p hp
  rcases mem_aset l k v p hp with h | h
  · exact hl p h
  · rw [h]; exact hv

/-- Sum of the (integer) values of an association list. -/
def sumA (l : List (JVal × Int)) : Int := (l.map (fun p => p.2)).sum

theorem sumA_bump (l : List (JVal × Int)) (k : JVal) :
    sumA (aset beqJ l k ((alook beqJ l k).getD 0 + 1)) = sumA l + 1 := by
  induction l with
  | nil => simp [aset, alook, sumA]
  | cons p t ih =>
    by_cases hp : beqJ p.1 k = true
    · simp [aset, alook, hp, sumA]; ring
    · simp only [aset, alook, hp, if_neg, Bool.false_eq_true, not_false_iff]
      simp only [sumA, List.map_cons, List.sum_cons] at ih ⊢
      rw [ih]; ring

/-- The `foldlM` unfolding on a cons cell, specialised to `Except`. -/
theorem foldlM_cons {σ α : Type} (f : σ → α → Except String σ) (s : σ) (a : α) (l : List α) :
    List.foldlM f s (a :: l) = f s a >>= fun s' => List.foldlM f s' l := rfl

/-- Invariant preservation along a successful `foldlM`. -/
theorem foldlM_inv {σ α : Type} (f : σ → α → Except String σ) (P : σ → Prop)
    (hstep : ∀ s a s', P s → f s a = .ok s' → P s') :
    ∀ (l : List α) (s r : σ), P s → List.foldlM f s l = .ok r → P r := by
  intro l
  induction l with
  | nil =>
    intro s r hP h
    have h' : (Except.ok s : Except String σ) = .ok r := h
    cases h'; exact hP
  | cons a t ih =>
    intro s r hP h
    rw [foldlM_cons] at h
    cases hfa : f s a with
    | error e => rw [hfa] at h; exact absurd h (by simp [error_bind])
    | ok s' =>
      rw [hfa, ok_bind] at h
      exact ih s' r (hstep s a s' hP hfa) h

/-- Invariant preservation along a successful `foldlM`, tracking the
processed prefix. -/
theorem foldlM_inv_pre {σ α : Type} (f : σ → α → Except String σ)
    (P : List α → σ → Prop)
    (hstep : ∀ pre s a s', P pre s → f s a = .ok s' → P (pre ++ [a]) s') :
    ∀ (l pre : List α) (s r : σ), P pre s → List.foldlM f s l = .ok r →
      P (pre ++ l) r := by
  intro l
  induction l with
  | nil =>
    intro pre s r hP h
    have h' : (Except.ok s : Except String σ) = .ok r := h
    cases h'; simpa using hP
  | cons a t ih =>
    intro pre s r hP h
    rw [foldlM_cons] at h
    cases hfa : f s a with
    | error e => rw [hfa] at h; exact absurd h (by simp [error_bind])
    | ok s' =>
      rw [hfa, ok_bind] at h
      have := ih (pre ++ [a]) s' r (hstep pre s a s' hP hfa) h
      simpa using this

/-- A successful `detStep` factors through the digest. -/
theorem detStep_ok (st : DetState) (issue : JVal) (st' : DetState)
    (h : detStep st issue = .ok st') :
    ∃ d, detInfoOf issue = .ok d ∧ st' = detApply st d := by
  unfold detStep at h
  cases hd : detInfoOf issue with
  | error e => rw [hd] at h; exact absurd h (by simp [error_bind])
  | ok d =>
    rw [hd, ok_bind] at h
    exact ⟨d, rfl, by cases h; rfl⟩

/-- A successful `dashStep` factors through the extraction. -/
theorem dashStep_ok (st : DashState) (issue : JVal) (st' : DashState)
    (h : dashStep st issue = .ok st') :
    ∃ d, dashInfoOf issue = .ok d ∧ dashApply st d = .ok st' := by
  unfold dashStep at h
  cases hd : dashInfoOf issue with
  | error e => rw [hd] at h; exact absurd h (by simp [error_bind])
  | ok d => rw [hd, ok_bind] at h; exact ⟨d, rfl, h⟩

/-! ### Matrix aggregator invariants -/

/-- A well-formed matrix row: it binds every tracked status, and every
cell is non-negative. -/
def RowOk (row : List (String × Int)) : Prop :=
  (∀ s ∈ STATUSES, ∃ c, alook strEq row s = some c) ∧ ∀ cell ∈ row, 0 ≤ cell.2

/-- Matrix well-formedness: every static platform has a row, and every
row is well-formed. -/
def MatrixWf (st : DashState) : Prop :=
  (∀ p ∈ PLATFORMS, ∃ row, alook strEq st.matrix p = some row) ∧
  ∀ pr ∈ st.matrix, RowOk pr.2

theorem zeroRow_ok : RowOk zeroRow := by
  constructor
  · intro s hs
    fin_cases hs <;> exact ⟨0, by decide⟩
  · intro cell hc
    simp [zeroRow, STATUSES] at hc
    rcases hc with h | h | h | h | h | h <;> simp [h]

theorem initDash_wf : MatrixWf initDash := by
  constructor
  · intro p hp
    fin_cases hp <;> exact ⟨zeroRow, by decide⟩
  · intro pr hpr
    have h2 : pr.2 = zeroRow := by
      simp only [initDash, List.mem_map] at hpr
      obtain ⟨a, _, ha⟩ := hpr
      rw [← ha]
    rw [h2]; exact zeroRow_ok

theorem RowOk_bump (row : List (String × Int)) (su : String) (c : Int)
    (hc : alook strEq row su = some c) (hok : RowOk row) :
    RowOk (aset strEq row su (c + 1)) := by
  obtain ⟨hall, hnn⟩ := hok
  constructor
  · intro s hs
    by_cases hsu : s = su
    · subst hsu; exact ⟨c + 1, alook_aset_self strEq_lawful row s (c + 1)⟩
    · rw [alook_aset_ne strEq_lawful row su s (c + 1) hsu]
      exact hall s hs
  · refine aset_values row su (c + 1) (fun v => 0 ≤ v) hnn ?_
    have := alook_mem row su c hc
    obtain ⟨p, hp, hv⟩ := this
    have := hnn p hp
    omega

theorem extendRow_plat (matrix : List (String × List (String × Int))) (ap : String)
    (hplat : ∀ p ∈ PLATFORMS, ∃ row, alook strEq matrix p = some row) :
    ∀ p ∈ PLATFORMS,
      ∃ row, alook strEq (if (alook strEq matrix ap).isSome then matrix
               else matrix ++ [(ap, zeroRow)]) p = some row := by
  intro p hp
  obtain ⟨row, hrow⟩ := hplat p hp
  by_cases hsome : (alook strEq matrix ap).isSome
  · simp only [hsome, if_true]; exact ⟨row, hrow⟩
  · simp only [hsome, if_false]
    exact ⟨row, alook_append_some matrix _ p row hrow⟩

theorem extendRow_rows (matrix : List (String × List (String × Int))) (ap : String)
    (hrows : ∀ pr ∈ matrix, RowOk pr.2) :
    ∀ pr ∈ (if (alook strEq matrix ap).isSome then matrix
               else matrix ++ [(ap, zeroRow)]), RowOk pr.2 := by
  intro pr hpr
  by_cases hsome : (alook strEq matrix ap).isSome
  · simp only [hsome, if_true] at hpr; exact hrows pr hpr
  · simp only [hsome, if_false] at hpr
    rcases List.mem_append.mp hpr with hin | hin
    · exact hrows pr hin
    · have : pr = (ap, zeroRow) := by simpa using hin
      rw [this]; exact zeroRow_ok

theorem matrixBumpGo_wf (m : List (String × List (String × Int))) (ap su : String)
    (m' : List (String × List (String × Int))) (h : matrixBumpGo m ap su = .ok m')
    (hm_plat : ∀ p ∈ PLATFORMS, ∃ row, alook strEq m p = some row)
    (hm_rows : ∀ pr ∈ m, RowOk pr.2) :
    (∀ p ∈ PLATFORMS, ∃ row, alook strEq m' p = some row) ∧ ∀ pr ∈ m', RowOk pr.2 := by
  unfold matrixBumpGo at h
  split at h
  · exact absurd h (by simp)
  · split at h
    · exact absurd h (by simp)
    · rename_i x1 row hrow x2 c hc
      cases h
      constructor
      · intro p hp
        obtain ⟨r0, hr0⟩ := hm_plat p hp
        by_cases hpap : p = ap
        · subst hpap
          exact ⟨_, alook_aset_self strEq_lawful _ p _⟩
        · rw [alook_aset_ne strEq_lawful _ _ p _ hpap]
          exact ⟨r0, hr0⟩
      · intro pr hpr
        rcases mem_aset _ _ _ pr hpr with hin | hval
        · exact hm_rows pr hin
        · rw [hval]
          have hrok : RowOk row := by
            obtain ⟨p0, hp0, hv0⟩ := alook_mem _ _ row hrow
            have := hm_rows p0 hp0
            rw [hv0] at this; exact this
          exact RowOk_bump row _ c hc hrok

theorem matrixBump_wf (matrix : List (String × List (String × Int))) (ap su : String)
    (m' : List (String × List (String × Int))) (h : matrixBump matrix ap su = .ok m')
    (hplat : ∀ p ∈ PLATFORMS, ∃ row, alook strEq matrix p = some row)
    (hrows : ∀ pr ∈ matrix, RowOk pr.2) :
    (∀ p ∈ PLATFORMS, ∃ row, alook strEq m' p = some row) ∧ ∀ pr ∈ m', RowOk pr.2 :=
  matrixBumpGo_wf _ ap su m' h (extendRow_plat matrix ap hplat) (extendRow_rows matrix ap hrows)

theorem dashApply_wf (st : DashState) (d : DashInfo) (st' : DashState)
    (h : dashApply st d = .ok st') (hw : MatrixWf st) : MatrixWf st' := by
  obtain ⟨hplat, hrows⟩ := hw
  unfold dashApply at h
  simp only [] at h
  split at h
  · split at h
    · split at h
      · exact absurd h (by simp)
      · rename_i m' hbump
        cases h
        exact matrixBump_wf st.matrix _ _ m' hbump hplat hrows
    · split at h
      · cases h; exact ⟨hplat, hrows⟩
      · split at h
        · cases h; exact ⟨hplat, hrows⟩
        · cases h; exact ⟨hplat, hrows⟩
  · cases h; exact ⟨hplat, hrows⟩

theorem dashState_wf (issues : List JVal) (st : DashState)
    (h : build_dashboard_state issues = .ok st) : MatrixWf st := by
  refine foldlM_inv dashStep MatrixWf ?_ issues initDash st initDash_wf h
  intro s a s' hP hstep
  obtain ⟨d, _, happ⟩ := dashStep_ok s a s' hstep
  exact dashApply_wf s d s' happ hP

/-! ### Diagnostic counter invariant -/

/-- The three diagnostic branch counters always sum to the bug count. -/
def CountInv (st : DashState) : Prop :=
  st.matched_counted + st.unmatched_status + st.unmatched_platforms = st.total_bugs

/-- The three branch outcomes on a bug-like issue: exactly one counter is
incremented. -/
def OneBranch (st st' : DashState) : Prop :=
  st'.total_bugs = st.total_bugs + 1 ∧
  ((st'.matched_counted = st.matched_counted + 1 ∧
    st'.unmatched_status = st.unmatched_status ∧
    st'.unmatched_platforms = st.unmatched_platforms) ∨
   (st'.matched_counted = st.matched_counted ∧
    st'.unmatched_status = st.unmatched_status + 1 ∧
    st'.unmatched_platforms = st.unmatched_platforms) ∨
   (st'.matched_counted = st.matched_counted ∧
    st'.unmatched_status = st.unmatched_status ∧
    st'.unmatched_platforms = st.unmatched_platforms + 1))

theorem dashApply_branches (st : DashState) (d : DashInfo) (st' : DashState)
    (h : dashApply st d = .ok st') :
    (upperStr d.issue_type = "BUG" → OneBranch st st') ∧
    (upperStr d.issue_type ≠ "BUG" → st' = st) := by
  unfold dashApply at h
  simp only [] at h
  split at h
  · rename_i hbug
    refine ⟨fun _ => ?_, fun hne => absurd hbug hne⟩
    split at h
    · split at h
      · exact absurd h (by simp)
      · cases h
        exact ⟨rfl, Or.inl ⟨rfl, rfl, rfl⟩⟩
    · split at h
      · cases h
        exact ⟨rfl, Or.inr (Or.inl ⟨rfl, rfl, rfl⟩)⟩
      · split at h
        · cases h
          exact ⟨rfl, Or.inr (Or.inr ⟨rfl, rfl, rfl⟩)⟩
        · cases h
          rename_i hns hnn
          exfalso
          cases hd : d.platform
          · exact hnn (by rw [hd]; rfl)
          · exact hns (by rw [hd]; rfl)
  · rename_i hbug
    cases h
    exact ⟨fun hc => absurd hc hbug, fun _ => rfl⟩

theorem dashApply_count (st : DashState) (d : DashInfo) (st' : DashState)
    (h : dashApply st d = .ok st') (hc : CountInv st) : CountInv st' := by
  obtain ⟨hb, hnb⟩ := dashApply_branches st d st' h
  by_cases hbug : upperStr d.issue_type = "BUG"
  · obtain ⟨ht, hone⟩ := hb hbug
    unfold CountInv at hc ⊢
    rcases hone with ⟨h1, h2, h3⟩ | ⟨h1, h2, h3⟩ | ⟨h1, h2, h3⟩ <;> omega
  · rw [hnb hbug]; exact hc

theorem dashState_count (issues : List JVal) (st : DashState)
    (h : build_dashboard_state issues = .ok st) : CountInv st := by
  refine foldlM_inv dashStep CountInv ?_ issues initDash st (by simp [CountInv, initDash]) h
  intro s a s' hP hstep
  obtain ⟨d, _, happ⟩ := dashStep_ok s a s' hstep
  exact dashApply_count s d s' happ hP

/-! ### Claim theorems for the Matrix Aggregator -/

/-- C9: the aggregation is deterministic — `build_dashboard_data` and
`build_detailed_data` are pure functions of the issue list, so two runs
over the same unchanged list produce identical Matrix and Detailed
Aggregate structures (the `updated_at` timestamp is attached outside
these functions). -/
theorem C9_aggregation_deterministic (issues : List JVal) :
    build_dashboard_data issues = build_dashboard_data issues ∧
    build_detailed_data issues = build_detailed_data issues :=
  ⟨rfl, rfl⟩

/-- C7: before any issue is processed the Matrix holds exactly the twelve
static platforms, each mapped to the six tracked statuses at count zero;
and after aggregating any issue list every static platform row is still
present, binds every tracked status, and every cell is a non-negative
integer. -/
theorem C7_matrix_seeding :
    (initDash.matrix = PLATFORMS.map (fun p => (p, STATUSES.map (fun s => (s, (0 : Int)))))) ∧
    (∀ p ∈ PLATFORMS, ∀ s ∈ STATUSES,
      alook strEq ((alook strEq initDash.matrix p).getD []) s = some 0) ∧
    (∀ issues st, build_dashboard_state issues = .ok st →
      (∀ p ∈ PLATFORMS, ∃ row, alook strEq st.matrix p = some row ∧
        ∀ s ∈ STATUSES, ∃ c, alook strEq row s = some c ∧ 0 ≤ c) ∧
      (∀ pr ∈ st.matrix, ∀ cell ∈ pr.2, 0 ≤ cell.2)) := by
  refine ⟨rfl, by decide, ?_⟩
  intro issues st h
  obtain ⟨hplat, hrows⟩ := dashState_wf issues st h
  constructor
  · intro p hp
    obtain ⟨row, hrow⟩ := hplat p hp
    refine ⟨row, hrow, ?_⟩
    obtain ⟨pr, hpr, hpr2⟩ := alook_mem st.matrix p row hrow
    have hrok : RowOk row := hpr2 ▸ hrows pr hpr
    intro s hs
    obtain ⟨c, hc⟩ := hrok.1 s hs
    refine ⟨c, hc, ?_⟩
    obtain ⟨cell, hcell, hcv⟩ := alook_mem row s c hc
    exact hcv ▸ hrok.2 cell hcell
  · intro pr hpr
    exact (hrows pr hpr).2

/-- Witness for C7 at the concrete input `[]` (the freshly seeded state)
and the static platform `IOS`. -/
theorem C7_matrix_seeding_witness :
    ∃ row, alook strEq initDash.matrix "IOS" = some row ∧
      ∀ s ∈ STATUSES, ∃ c, alook strEq row s = some c ∧ 0 ≤ c :=
  ((C7_matrix_seeding.2.2 [] initDash rfl).1 "IOS" (by decide))

/-- C2: over bug-like issues the three diagnostic branches of the Matrix
Aggregator are mutually exclusive and collectively exhaustive: the three
counters sum to the bug count after any successful run, and one
iteration on a bug-like issue increments the bug count and exactly one
of the three branch counters (a non-bug-like issue changes nothing). -/
theorem C2_branch_partition :
    (∀ issues st, build_dashboard_state issues = .ok st →
      st.matched_counted + st.unmatched_status + st.unmatched_platforms = st.total_bugs) ∧
    (∀ st d st', dashApply st d = .ok st' →
      (upperStr d.issue_type = "BUG" → OneBranch st st') ∧
      (upperStr d.issue_type ≠ "BUG" → st' = st)) :=
  ⟨fun issues st h => dashState_count issues st h,
   fun st d st' h => dashApply_branches st d st' h⟩

/-- A concrete extraction record: a bug in an untracked status with no
platform signal. -/
def dW : DashInfo := { status_name := "Closed", issue_type := "Bug", platform := none }

/-- The state after applying `dW` to the seeded state. -/
def dW_result : DashState :=
  { initDash with
      total_bugs := 1
      unmatched_platforms := 1
      bug_status_breakdown := [("Closed", 1)] }

/-- Witness for C2 at the concrete inputs `[]` and `dW`. -/
theorem C2_branch_partition_witness :
    (initDash.matched_counted + initDash.unmatched_status + initDash.unmatched_platforms =
      initDash.total_bugs) ∧ OneBranch initDash dW_result :=
  ⟨C2_branch_partition.1 [] initDash rfl,
   (C2_branch_partition.2 initDash dW dW_result (by decide)).1 (by decide)⟩

/-! ### The Platform Classifier: first-match characterisation -/

theorem isPrefixL_iff : ∀ needle hay : List Char, isPrefixL needle hay = true ↔ needle <+: hay
  | [], hay => by simp [isPrefixL]
  | a :: as, [] => by simp [isPrefixL]
  | a :: as, b :: bs => by
      simp only [isPrefixL, Bool.and_eq_true, decide_eq_true_eq, List.cons_prefix_cons]
      rw [isPrefixL_iff as bs]

theorem containsL_iff : ∀ needle hay : List Char, containsL needle hay = true ↔ needle <:+: hay
  | needle, [] => by
      simp [containsL, isPrefixL_iff]
  | needle, c :: t => by
      simp only [containsL, Bool.or_eq_true]
      rw [isPrefixL_iff, containsL_iff needle t, List.infix_cons_iff]

/-- The spec-side notion of pattern occurrence: the pattern is a
contiguous substring of the corpus. -/
def occursIn (pat corpus : String) : Prop := pat.data <:+: corpus.data

theorem strContains_iff (corpus pat : String) :
    strContains corpus pat = true ↔ occursIn pat corpus :=
  containsL_iff pat.data corpus.data

/-- First-match characterisation of `List.find?`. -/
theorem find_first {α : Type} (f : α → Bool) :
    ∀ (l : List α) (a : α), l.find? f = some a ↔
      ∃ l₁ l₂, l = l₁ ++ a :: l₂ ∧ f a = true ∧ ∀ x ∈ l₁, f x = false := by
  intro l
  induction l with
  | nil => intro a; simp
  | cons b t ih =>
    intro a
    by_cases hb : f b = true
    · rw [List.find?_cons_of_pos t hb]
      constructor
      · intro h
        cases h
        exact ⟨[], t, rfl, hb, by simp⟩
      · rintro ⟨l₁, l₂, heq, hfa, hall⟩
        cases l₁ with
        | nil =>
          simp only [List.nil_append, List.cons.injEq] at heq
          rw [heq.1]
        | cons x xs =>
          simp only [List.cons_append, List.cons.injEq] at heq
          have hx := hall x (by simp)
          rw [← heq.1] at hx
          rw [hb] at hx
          cases hx
    · rw [List.find?_cons_of_neg t hb]
      rw [ih a]
      have hbf : f b = false := by
        cases hfb : f b
        · rfl
        · exact absurd hfb hb
      constructor
      · rintro ⟨l₁, l₂, heq, hfa, hall⟩
        refine ⟨b :: l₁, l₂, by rw [heq]; rfl, hfa, ?_⟩
        intro x hx
        rcases List.mem_cons.mp hx with hxb | hxm
        · rw [hxb]; exact hbf
        · exact hall x hxm
      · rintro ⟨l₁, l₂, heq, hfa, hall⟩
        cases l₁ with
        | nil =>
          simp only [List.nil_append, List.cons.injEq] at heq
          rw [← heq.1] at hfa
          exact absurd hfa hb
        | cons x xs =>
          simp only [List.cons_append, List.cons.injEq] at heq
          refine ⟨xs, l₂, heq.2, hfa, ?_⟩
          intro y hy
          exact hall y (by simp [hy])

/-- `detect_platform` in terms of its computed corpus. -/
theorem detect_platform_eq (issue : JVal) (corpus : String)
    (h : all_text_of issue = .ok corpus) :
    detect_platform issue = .ok (firstPlatform corpus) := by
  unfold detect_platform
  rw [h, ok_bind]
  rfl

/-- C1: the Platform Classifier returns the first platform of the fixed
ordered table for which some pattern occurs as a substring of the
upper-cased corpus built from labels, components, custom fields and
summary; it returns `none` exactly when no pattern occurs (so at most one
platform is ever assigned); and the corpus `ANDROID TV CRASH` classifies
as `ATV`, not `ANDROID`. -/
theorem C1_first_match_classifier :
    (∀ issue corpus, all_text_of issue = .ok corpus →
      (detect_platform issue = .ok none ↔
        ∀ pp ∈ platform_patterns, ∀ pat ∈ pp.2, ¬ occursIn pat corpus) ∧
      (∀ p, detect_platform issue = .ok (some p) ↔
        ∃ pats pre suf, platform_patterns = pre ++ (p, pats) :: suf ∧
          (∃ pat ∈ pats, occursIn pat corpus) ∧
          ∀ pp ∈ pre, ∀ pat ∈ pp.2, ¬ occursIn pat corpus)) ∧
    detect_platform (.obj [("fields", .obj [("summary", .str "Android TV crash")])]) =
      .ok (some "ATV") := by
  constructor
  · intro issue corpus h
    rw [detect_platform_eq issue corpus h]
    unfold firstPlatform
    constructor
    · rw [show (Except.ok (Option.map (fun x => x.1)
          (List.find? (fun pp => pp.2.any fun pat => strContains corpus pat) platform_patterns)) =
          (Except.ok none : Except String (Option String))) ↔
          (Option.map (fun x => (x.1 : String))
            (List.find? (fun pp => pp.2.any fun pat => strContains corpus pat) platform_patterns) =
            none) from by simp]
      rw [Option.map_eq_none', List.find?_eq_none]
      constructor
      · intro hnone
        intro pp hpp pat hpat hocc
        have := hnone pp hpp
        simp only [List.any_eq_true] at this
        exact this ⟨pat, hpat, (strContains_iff corpus pat).mpr hocc⟩
      · intro hall pp hpp
        simp only [List.any_eq_true]
        rintro ⟨pat, hpat, hc⟩
        exact hall pp hpp pat hpat ((strContains_iff corpus pat).mp hc)
    · intro p
      simp only [Except.ok.injEq, Option.map_eq_some']
      constructor
      · rintro ⟨pp, hfind, hp1⟩
        rw [find_first] at hfind
        obtain ⟨pre, suf, heq, hfa, hall⟩ := hfind
        refine ⟨pp.2, pre, suf, by rw [heq, ← hp1], ?_, ?_⟩
        · simp only [List.any_eq_true] at hfa
          obtain ⟨pat, hpat, hc⟩ := hfa
          exact ⟨pat, hpat, (strContains_iff corpus pat).mp hc⟩
        · intro q hq pat hpat hocc
          have hq2 := hall q hq
          have hq3 : ¬ (q.2.any fun pat => strContains corpus pat) = true := by
            simp [hq2]
          simp only [List.any_eq_true] at hq3
          exact hq3 ⟨pat, hpat, (strContains_iff corpus pat).mpr hocc⟩
      · rintro ⟨pats, pre, suf, heq, ⟨pat, hpat, hocc⟩, hall⟩
        refine ⟨(p, pats), ?_, rfl⟩
        rw [find_first]
        refine ⟨pre, suf, heq, ?_, ?_⟩
        · simp only [List.any_eq_true]
          exact ⟨pat, hpat, (strContains_iff corpus pat).mpr hocc⟩
        · intro q hq
          have : ¬ (q.2.any fun pat => strContains corpus pat) = true := by
            simp only [List.any_eq_true]
            rintro ⟨pat2, hpat2, hc2⟩
            exact hall q hq pat2 hpat2 ((strContains_iff corpus pat2).mp hc2)
          simpa using this
  · decide

/-- Witness for C1 at a concrete issue whose corpus is `LG TV REMOTE`:
the corpus computes, the classifier agrees with the first-match
characterisation, and the match is `LG_TV`. -/
theorem C1_first_match_classifier_witness :
    detect_platform (.obj [("fields", .obj [("summary", .str "lg tv remote")])]) =
        .ok (some "LG_TV") ∧
    (detect_platform (.obj [("fields", .obj [("summary", .str "lg tv remote")])]) = .ok none ↔
      ∀ pp ∈ platform_patterns, ∀ pat ∈ pp.2, ¬ occursIn pat "LG TV REMOTE") := by
  refine ⟨by decide, ?_⟩
  exact (C1_first_match_classifier.1
    (.obj [("fields", .obj [("summary", .str "lg tv remote")])]) "LG TV REMOTE" (by decide)).1

/-! ### Inversion of the detail digest -/

theorem bind_ok_inv {α β : Type} {e : Except String α} {f : α → Except String β} {b : β}
    (h : (e >>= f) = .ok b) : ∃ a, e = .ok a ∧ f a = .ok b := by
  cases e with
  | error x => exact absurd h (by simp [error_bind])
  | ok a => exact ⟨a, rfl, by rw [← ok_bind a f]; exact h⟩

theorem hguard_ok {v : JVal} {u : Unit} (h : hguard v = .ok u) : hashable v = true := by
  cases hv : hashable v
  · unfold hguard at h
    rw [hv] at h
    simp at h
  · rfl

theorem pyUpper_ok {v : JVal} {u : String} (h : pyUpper v = .ok u) :
    ∃ s, v = .str s ∧ u = upperStr s := by
  cases v <;> simp [pyUpper] at h
  exact ⟨_, rfl, h.symm⟩

theorem dictItems_ok {v : JVal} {l : List (String × JVal)} (h : dictItems v = .ok l) :
    v = .obj l := by
  cases v <;> simp [dictItems] at h
  rw [h]

/-- Characterisation of a successful digest extraction: the relations
between the stored per-issue locals that the source establishes. -/
theorem detInfoOf_spec (issue : JVal) (d : DetInfo) (h : detInfoOf issue = .ok d) :
    (∃ fs, dictGet issue "fields" (.obj []) = .ok (.obj fs) ∧ d.sprint_name = sprint_scan fs) ∧
    (∃ its, d.issue_type = .str its ∧ d.type_upper = upperStr its) ∧
    d.item.sprint = (if truthy d.sprint_name then d.sprint_name else .str "No Sprint") ∧
    d.item.assignee = d.assignee ∧
    d.item.priority = d.priority ∧
    d.item.platform = d.platform.getD "Unknown" ∧
    d.item.type = d.issue_type ∧
    d.item.key = d.key ∧
    d.item.status = d.status_name ∧
    hashable d.assignee = true ∧
    (d.type_upper = "BUG" → hashable d.priority = true) ∧
    (truthy d.sprint_name = true →
      hashable d.sprint_name = true ∧ hashable d.status_name = true) ∧
    detect_platform issue = .ok d.platform ∧
    release_pairs_of d.status_name d.fix_versions = .ok d.release_pairs := by
  unfold detInfoOf at h
  obtain ⟨fields, hfields, h⟩ := bind_ok_inv h
  obtain ⟨tv, htv, h⟩ := bind_ok_inv h
  obtain ⟨issue_type, hit, h⟩ := bind_ok_inv h
  obtain ⟨sv, hsv, h⟩ := bind_ok_inv h
  obtain ⟨status_name, hsn, h⟩ := bind_ok_inv h
  obtain ⟨summary, hsum, h⟩ := bind_ok_inv h
  obtain ⟨key, hkey, h⟩ := bind_ok_inv h
  obtain ⟨priority, hpri, h⟩ := bind_ok_inv h
  obtain ⟨assignee, hass, h⟩ := bind_ok_inv h
  obtain ⟨created, hcr, h⟩ := bind_ok_inv h
  obtain ⟨updated, hup, h⟩ := bind_ok_inv h
  obtain ⟨duedate, hdd, h⟩ := bind_ok_inv h
  obtain ⟨fvv, hfvv, h⟩ := bind_ok_inv h
  obtain ⟨fix_versions, hfvs, h⟩ := bind_ok_inv h
  obtain ⟨fix_version_names, hfvn, h⟩ := bind_ok_inv h
  obtain ⟨platform, hplat, h⟩ := bind_ok_inv h
  obtain ⟨fitems, hfit, h⟩ := bind_ok_inv h
  obtain ⟨createdT, hcrT, h⟩ := bind_ok_inv h
  obtain ⟨updatedT, hupT, h⟩ := bind_ok_inv h
  obtain ⟨duedateT, hddT, h⟩ := bind_ok_inv h
  obtain ⟨fixversion, hfx, h⟩ := bind_ok_inv h
  obtain ⟨type_upper, htu, h⟩ := bind_ok_inv h
  obtain ⟨g1, hg1, h⟩ := bind_ok_inv h
  obtain ⟨g2, hg2, h⟩ := bind_ok_inv h
  obtain ⟨g3, hg3, h⟩ := bind_ok_inv h
  obtain ⟨release_pairs, hrp, h⟩ := bind_ok_inv h
  have hd : d = dRec key issue_type status_name summary priority assignee fix_versions
      fix_version_names platform fitems createdT updatedT duedateT fixversion
      type_upper release_pairs := by
    have h' : Except.ok (dRec key issue_type status_name summary priority assignee fix_versions
      fix_version_names platform fitems createdT updatedT duedateT fixversion
      type_upper release_pairs : DetInfo) = .ok d := h
    exact (Except.ok.injEq _ _).mp h' |>.symm
  subst hd
  have hfieldsObj : fields = .obj fitems := dictItems_ok hfit
  obtain ⟨its, hits, htu2⟩ := pyUpper_ok htu
  refine ⟨⟨fitems, by rw [← hfieldsObj]; exact hfields, rfl⟩,
          ⟨its, hits, htu2⟩, rfl, rfl, rfl, rfl, rfl, rfl, rfl,
          hguard_ok hg1, ?_, ?_, hplat, hrp⟩
  · intro hbug
    have hbug' : type_upper = "BUG" := hbug
    unfold bug_priority_guard at hg2
    rw [if_pos hbug'] at hg2
    exact hguard_ok hg2
  · intro hsp
    have hsp' : truthy (sprint_scan fitems) = true := hsp
    unfold sprint_guard at hg3
    rw [if_pos hsp'] at hg3
    obtain ⟨u1, hu1, hu2⟩ := bind_ok_inv hg3
    exact ⟨hguard_ok hu1, hguard_ok hu2⟩

/-! ### Projections of the detail state update -/

theorem typeBucketAdd_sprints (st : DetState) (tu : String) (item : IssueItem) :
    (typeBucketAdd st tu item).sprints = st.sprints := by
  unfold typeBucketAdd; split_ifs <;> rfl

theorem typeBucketAdd_releases (st : DetState) (tu : String) (item : IssueItem) :
    (typeBucketAdd st tu item).releases = st.releases := by
  unfold typeBucketAdd; split_ifs <;> rfl

theorem typeBucketAdd_workload (st : DetState) (tu : String) (item : IssueItem) :
    (typeBucketAdd st tu item).assignee_workload = st.assignee_workload := by
  unfold typeBucketAdd; split_ifs <;> rfl

theorem typeBucketAdd_priority (st : DetState) (tu : String) (item : IssueItem) :
    (typeBucketAdd st tu item).priority_breakdown = st.priority_breakdown := by
  unfold typeBucketAdd; split_ifs <;> rfl

theorem typeBucketAdd_lists (st : DetState) (tu : String) (item : IssueItem) :
    (tu = "BUG" → (typeBucketAdd st tu item).bugs = st.bugs ++ [item] ∧
      (typeBucketAdd st tu item).tasks = st.tasks ∧
      (typeBucketAdd st tu item).subtasks = st.subtasks ∧
      (typeBucketAdd st tu item).stories = st.stories) ∧
    (tu = "TASK" → (typeBucketAdd st tu item).bugs = st.bugs ∧
      (typeBucketAdd st tu item).tasks = st.tasks ++ [item] ∧
      (typeBucketAdd st tu item).subtasks = st.subtasks ∧
      (typeBucketAdd st tu item).stories = st.stories) ∧
    (tu = "SUB-TASK" → (typeBucketAdd st tu item).bugs = st.bugs ∧
      (typeBucketAdd st tu item).tasks = st.tasks ∧
      (typeBucketAdd st tu item).subtasks = st.subtasks ++ [item] ∧
      (typeBucketAdd st tu item).stories = st.stories) ∧
    (tu = "STORY" → (typeBucketAdd st tu item).bugs = st.bugs ∧
      (typeBucketAdd st tu item).tasks = st.tasks ∧
      (typeBucketAdd st tu item).subtasks = st.subtasks ∧
      (typeBucketAdd st tu item).stories = st.stories ++ [item]) ∧
    (tu ≠ "BUG" → tu ≠ "TASK" → tu ≠ "SUB-TASK" → tu ≠ "STORY" →
      typeBucketAdd st tu item = st) := by
  unfold typeBucketAdd
  split_ifs with h1 h2 h3 h4 <;>
    refine ⟨?_, ?_, ?_, ?_, ?_⟩ <;> intro hs <;> try intro hs2 hs3 hs4
  all_goals first
    | exact ⟨rfl, rfl, rfl, rfl⟩
    | rfl
    | (exfalso; simp_all)

theorem detApply_bugs_lists (st : DetState) (d : DetInfo) :
    (detApply st d).bugs = (typeBucketAdd st d.type_upper d.item).bugs ∧
    (detApply st d).tasks = (typeBucketAdd st d.type_upper d.item).tasks ∧
    (detApply st d).subtasks = (typeBucketAdd st d.type_upper d.item).subtasks ∧
    (detApply st d).stories = (typeBucketAdd st d.type_upper d.item).stories := by
  unfold detApply
  by_cases h1 : d.type_upper = "BUG" <;> by_cases h2 : truthy d.sprint_name <;>
    simp [h1, h2]

theorem detApply_workload (st : DetState) (d : DetInfo) :
    (detApply st d).assignee_workload =
      aset beqJ st.assignee_workload d.assignee
        (wlBump ((alook beqJ st.assignee_workload d.assignee).getD wlZero) d.type_upper) := by
  unfold detApply
  by_cases h1 : d.type_upper = "BUG" <;> by_cases h2 : truthy d.sprint_name <;>
    simp [h1, h2, typeBucketAdd_workload]

theorem detApply_sprints (st : DetState) (d : DetInfo) :
    (detApply st d).sprints =
      if truthy d.sprint_name then
        aset beqJ st.sprints d.sprint_name
          (sbBump ((alook beqJ st.sprints d.sprint_name).getD sbZero)
            d.type_upper d.status_name)
      else st.sprints := by
  unfold detApply
  by_cases h1 : d.type_upper = "BUG" <;> by_cases h2 : truthy d.sprint_name <;>
    simp [h1, h2, typeBucketAdd_sprints]

theorem detApply_releases (st : DetState) (d : DetInfo) :
    (detApply st d).releases =
      relFold d.release_pairs d.type_upper d.status_name (relEntry d) st.releases := by
  unfold detApply
  by_cases h1 : d.type_upper = "BUG" <;> by_cases h2 : truthy d.sprint_name <;>
    simp [h1, h2, typeBucketAdd_releases]

theorem detApply_priority (st : DetState) (d : DetInfo) :
    (detApply st d).priority_breakdown =
      if d.type_upper = "BUG" then
        aset beqJ st.priority_breakdown d.priority
          ((alook beqJ st.priority_breakdown d.priority).getD 0 + 1)
      else st.priority_breakdown := by
  unfold detApply
  by_cases h1 : d.type_upper = "BUG" <;> by_cases h2 : truthy d.sprint_name <;>
    simp [h1, h2, typeBucketAdd_priority]

theorem wlBump_total (w : Workload) (tu : String) : (wlBump w tu).total = w.total + 1 := by
  unfold wlBump
  split_ifs <;> rfl

/-- C8: per issue, the Detail Aggregator appends the item to at most one
of the four type buckets, selected by exact case-insensitive match of the
issue type name against BUG, TASK, SUB-TASK, STORY; any other type joins
none of them, yet the assignee's workload total still increments. -/
theorem C8_type_bucket_membership :
    ∀ (st : DetState) (issue : JVal) (d : DetInfo), detInfoOf issue = .ok d →
      detStep st issue = .ok (detApply st d) ∧
      (d.type_upper = "BUG" → (detApply st d).bugs = st.bugs ++ [d.item] ∧
        (detApply st d).tasks = st.tasks ∧ (detApply st d).subtasks = st.subtasks ∧
        (detApply st d).stories = st.stories) ∧
      (d.type_upper = "TASK" → (detApply st d).bugs = st.bugs ∧
        (detApply st d).tasks = st.tasks ++ [d.item] ∧ (detApply st d).subtasks = st.subtasks ∧
        (detApply st d).stories = st.stories) ∧
      (d.type_upper = "SUB-TASK" → (detApply st d).bugs = st.bugs ∧
        (detApply st d).tasks = st.tasks ∧ (detApply st d).subtasks = st.subtasks ++ [d.item] ∧
        (detApply st d).stories = st.stories) ∧
      (d.type_upper = "STORY" → (detApply st d).bugs = st.bugs ∧
        (detApply st d).tasks = st.tasks ∧ (detApply st d).subtasks = st.subtasks ∧
        (detApply st d).stories = st.stories ++ [d.item]) ∧
      (d.type_upper ≠ "BUG" → d.type_upper ≠ "TASK" → d.type_upper ≠ "SUB-TASK" →
        d.type_upper ≠ "STORY" →
        (detApply st d).bugs = st.bugs ∧ (detApply st d).tasks = st.tasks ∧
        (detApply st d).subtasks = st.subtasks ∧ (detApply st d).stories = st.stories) ∧
      (∃ w2, alook beqJ (detApply st d).assignee_workload d.assignee = some w2 ∧
        w2.total = ((alook beqJ st.assignee_workload d.assignee).getD wlZero).total + 1) := by
  intro st issue d hd
  obtain ⟨hb, ht, hs, hy⟩ := detApply_bugs_lists st d
  obtain ⟨l1, l2, l3, l4, l5⟩ := typeBucketAdd_lists st d.type_upper d.item
  refine ⟨?_, ?_, ?_, ?_, ?_, ?_, ?_⟩
  · unfold detStep
    rw [hd, ok_bind]
    exact rfl
  · intro htu; rw [hb, ht, hs, hy]; exact l1 htu
  · intro htu; rw [hb, ht, hs, hy]; exact l2 htu
  · intro htu; rw [hb, ht, hs, hy]; exact l3 htu
  · intro htu; rw [hb, ht, hs, hy]; exact l4 htu
  · intro h1 h2 h3 h4
    rw [hb, ht, hs, hy]
    rw [l5 h1 h2 h3 h4]
    exact ⟨rfl, rfl, rfl, rfl⟩
  · rw [detApply_workload]
    refine ⟨_, alook_aset_self beqJ_lawful _ _ _, ?_⟩
    exact wlBump_total _ _

/-- A concrete issue with no fields at all: everything defaults. -/
def issueW8 : JVal := .obj []

/-- The digest of `issueW8`. -/
def dW8 : DetInfo :=
  dRec (.str "") (.str "") (.str "") (.str "") (.str "None") (.str "Unassigned")
    [] [] none [] (.str "") (.str "") (.str "") (.str "") "" []

/-- Witness for C8 at the concrete inputs `initDet` and `issueW8` (an
issue of a type outside the four buckets). -/
theorem C8_type_bucket_membership_witness :
    detStep initDet issueW8 = .ok (detApply initDet dW8) ∧
    ((detApply initDet dW8).bugs = initDet.bugs ∧
      (detApply initDet dW8).tasks = initDet.tasks ∧
      (detApply initDet dW8).subtasks = initDet.subtasks ∧
      (detApply initDet dW8).stories = initDet.stories) ∧
    (∃ w2, alook beqJ (detApply initDet dW8).assignee_workload dW8.assignee = some w2 ∧
      w2.total = ((alook beqJ initDet.assignee_workload dW8.assignee).getD wlZero).total + 1) := by
  have h := C8_type_bucket_membership initDet issueW8 dW8 (by decide)
  exact ⟨h.1, h.2.2.2.2.2.1 (by decide) (by decide) (by decide) (by decide), h.2.2.2.2.2.2⟩

/-! ### Sprint resolution: the scan keeps the last qualifying object -/

/-- The sprint-name candidates one scanned value contributes: the `name`
of an object having both `name` and `state`. -/
def itemCandidates (v : JVal) : List JVal :=
  match v with
  | .obj es =>
    if (es.lookup "name").isSome && (es.lookup "state").isSome then
      [(es.lookup "name").getD .null]
    else []
  | _ => []

/-- The candidates one `fields` entry contributes, in scan order. -/
def entryCandidates (kv : String × JVal) : List JVal :=
  if startsW kv.1 "customfield_" && truthy kv.2 then
    match kv.2 with
    | .arr items => items.foldl (fun acc it => acc ++ itemCandidates it) []
    | .obj es => itemCandidates (.obj es)
    | _ => []
  else []

/-- All sprint-name candidates of an issue's fields, in scan order. -/
def sprintCandidates (fs : List (String × JVal)) : List JVal :=
  fs.foldl (fun acc kv => acc ++ entryCandidates kv) []

theorem foldl_collect {κ : Type} (g : κ → List JVal) :
    ∀ (l : List κ) (acc : List JVal),
      l.foldl (fun acc x => acc ++ g x) acc = acc ++ l.foldl (fun acc x => acc ++ g x) [] := by
  intro l
  induction l with
  | nil => intro acc; simp
  | cons a t ih =>
    intro acc
    simp only [List.foldl_cons, List.nil_append]
    rw [ih (acc ++ g a), ih (g a), List.append_assoc]

/-- An overwrite-style fold computes the last collected candidate. -/
theorem foldl_lastWins {κ : Type} (g : κ → List JVal) (step : JVal → κ → JVal)
    (hstep : ∀ sn x, step sn x = ((g x).getLast?).getD sn) :
    ∀ (l : List κ) (init : JVal),
      l.foldl step init = ((l.foldl (fun acc x => acc ++ g x) []).getLast?).getD init := by
  intro l
  induction l with
  | nil => intro init; simp
  | cons a t ih =>
    intro init
    simp only [List.foldl_cons, List.nil_append]
    rw [ih (step init a), hstep init a]
    rw [foldl_collect g t (g a)]
    rw [List.getLast?_append]
    cases hlast : (t.foldl (fun acc x => acc ++ g x) []).getLast? with
    | none => simp
    | some v => simp

theorem itemStep_eq (sn : JVal) (it : JVal) :
    (match it with
     | .obj es =>
       if (es.lookup "name").isSome && (es.lookup "state").isSome then
         (es.lookup "name").getD .null
       else sn
     | _ => sn) = ((itemCandidates it).getLast?).getD sn := by
  cases it <;> simp [itemCandidates]
  split_ifs <;> simp

/-- The scan of the source computes exactly the last candidate (or null
when there is none). -/
theorem sprint_scan_eq_last (fs : List (String × JVal)) :
    sprint_scan fs = ((sprintCandidates fs).getLast?).getD JVal.null := by
  unfold sprint_scan sprintCandidates
  refine foldl_lastWins entryCandidates _ ?_ fs JVal.null
  intro sn kv
  unfold entryCandidates
  by_cases hc : startsW kv.1 "customfield_" && truthy kv.2
  · rw [if_pos hc, if_pos hc]
    cases hv : kv.2 with
    | arr items =>
      refine foldl_lastWins itemCandidates _ ?_ items sn
      intro sn2 it
      exact itemStep_eq sn2 it
    | obj es => exact itemStep_eq sn (.obj es)
    | null => simp
    | bool b => simp
    | num n => simp
    | str s => simp
  · rw [if_neg hc, if_neg hc]
    simp

/-- Invariant: a key is in `sprints` exactly when some processed issue
resolved that truthy sprint value. -/
def SprintKeys (pre : List JVal) (st : DetState) : Prop :=
  ∀ k, (alook beqJ st.sprints k).isSome = true ↔
    ∃ issue ∈ pre, ∃ d, detInfoOf issue = .ok d ∧
      truthy d.sprint_name = true ∧ d.sprint_name = k

theorem detStep_sprintKeys (pre : List JVal) (st : DetState) (a : JVal) (st' : DetState)
    (hP : SprintKeys pre st) (h : detStep st a = .ok st') : SprintKeys (pre ++ [a]) st' := by
  obtain ⟨d0, hd0, hst'⟩ := detStep_ok st a st' h
  subst hst'
  intro k
  rw [detApply_sprints]
  by_cases htr : truthy d0.sprint_name
  · rw [if_pos htr]
    by_cases hk : k = d0.sprint_name
    · subst hk
      rw [alook_aset_self beqJ_lawful]
      simp only [Option.isSome_some, true_iff]
      exact ⟨a, by simp, d0, hd0, htr, rfl⟩
    · rw [alook_aset_ne beqJ_lawful _ _ _ _ hk]
      rw [hP k]
      constructor
      · rintro ⟨issue, hmem, d, hd, htd, hkd⟩
        exact ⟨issue, by simp [hmem], d, hd, htd, hkd⟩
      · rintro ⟨issue, hmem, d, hd, htd, hkd⟩
        rcases List.mem_append.mp hmem with hmem | hmem
        · exact ⟨issue, hmem, d, hd, htd, hkd⟩
        · have : issue = a := by simpa using hmem
          subst this
          rw [hd0] at hd
          cases hd
          exact absurd hkd.symm hk
  · rw [if_neg htr]
    rw [hP k]
    constructor
    · rintro ⟨issue, hmem, d, hd, htd, hkd⟩
      exact ⟨issue, by simp [hmem], d, hd, htd, hkd⟩
    · rintro ⟨issue, hmem, d, hd, htd, hkd⟩
      rcases List.mem_append.mp hmem with hmem | hmem
      · exact ⟨issue, hmem, d, hd, htd, hkd⟩
      · have : issue = a := by simpa using hmem
        subst this
        rw [hd0] at hd
        cases hd
        exact absurd htd htr

theorem build_sprintKeys (issues : List JVal) (st : DetState)
    (h : build_detailed_data issues = .ok st) : SprintKeys issues st := by
  have hbase : SprintKeys [] initDet := by
    intro k
    simp [initDet, alook]
  have := foldlM_inv_pre detStep SprintKeys detStep_sprintKeys issues [] initDet st hbase h
  simpa using this

/-- C3: the per-issue sprint name is the last custom-field object (or
list element) carrying both `name` and `state`; the displayed value
defaults to the literal `No Sprint` exactly when no truthy name was
resolved; and a `sprints` bucket exists precisely for the truthy resolved
values — the defaulting placeholder never creates a bucket. -/
theorem C3_sprint_resolution :
    (∀ fs, sprint_scan fs = ((sprintCandidates fs).getLast?).getD JVal.null) ∧
    (∀ issue d, detInfoOf issue = .ok d →
      d.item.sprint = (if truthy d.sprint_name then d.sprint_name else .str "No Sprint")) ∧
    (∀ issues st, build_detailed_data issues = .ok st →
      ∀ k, (alook beqJ st.sprints k).isSome = true ↔
        ∃ issue ∈ issues, ∃ d, detInfoOf issue = .ok d ∧
          truthy d.sprint_name = true ∧ d.sprint_name = k) :=
  ⟨sprint_scan_eq_last,
   fun issue d hd => (detInfoOf_spec issue d hd).2.2.1,
   fun issues st h => build_sprintKeys issues st h⟩

/-- A concrete issue carrying a sprint custom field. -/
def issueW3 : JVal :=
  .obj [("fields", .obj [("customfield_1",
    .obj [("name", .str "S1"), ("state", .str "active")])])]

/-- The digest of `issueW3`. -/
def dW3 : DetInfo :=
  dRec (.str "") (.str "") (.str "") (.str "") (.str "None") (.str "Unassigned")
    [] [] none [("customfield_1", .obj [("name", .str "S1"), ("state", .str "active")])]
    (.str "") (.str "") (.str "") (.str "") "" []

/-- The `S1` sprint bucket created by `issueW3`. -/
def sprintBucketW3 : SprintBucket :=
  { bugs := 0, tasks := 0, subtasks := 0, stories := 0, total := 1,
    statuses := [(.str "", 1)] }

/-- The detailed state after processing `issueW3`. -/
def stW3 : DetState :=
  { initDet with
      sprints := [(.str "S1", sprintBucketW3)]
      assignee_workload := [(.str "Unassigned",
        { bugs := 0, tasks := 0, subtasks := 0, stories := 0, total := 1 })] }

/-- Witness for C3 at the concrete issue `issueW3` and key `S1`. -/
theorem C3_sprint_resolution_witness :
    dW3.item.sprint = (if truthy dW3.sprint_name then dW3.sprint_name else .str "No Sprint") ∧
    ((alook beqJ stW3.sprints (JVal.str "S1")).isSome = true ↔
      ∃ issue ∈ [issueW3], ∃ d, detInfoOf issue = .ok d ∧
        truthy d.sprint_name = true ∧ d.sprint_name = JVal.str "S1") :=
  ⟨C3_sprint_resolution.2.1 issueW3 dW3 (by decide),
   C3_sprint_resolution.2.2 [issueW3] stW3 (by decide) (JVal.str "S1")⟩

/-! ### Release bucket lemmas -/

theorem rbBump_meta (b : ReleaseBucket) (tu : String) (s : JVal) (e : RelIssue) :
    (rbBump b tu s e).released = b.released ∧
    (rbBump b tu s e).releaseDate = b.releaseDate ∧
    (rbBump b tu s e).description = b.description := by
  unfold rbBump
  split_ifs <;> exact ⟨rfl, rfl, rfl⟩

theorem relFold_nil (tu : String) (status : JVal) (entry : RelIssue)
    (rels : List (JVal × ReleaseBucket)) : relFold [] tu status entry rels = rels := rfl

theorem relFold_cons (p : RelPair) (rest : List RelPair) (tu : String) (status : JVal)
    (entry : RelIssue) (rels : List (JVal × ReleaseBucket)) :
    relFold (p :: rest) tu status entry rels =
      relFold rest tu status entry
        (aset beqJ rels p.vname
          (rbBump ((alook beqJ rels p.vname).getD (rbInit p)) tu status entry)) := rfl

theorem relFold_meta (pairs : List RelPair) (tu : String) (status : JVal) (entry : RelIssue) :
    ∀ (rels : List (JVal × ReleaseBucket)) (k : JVal) (b : ReleaseBucket),
      alook beqJ rels k = some b →
      ∃ b2, alook beqJ (relFold pairs tu status entry rels) k = some b2 ∧
        b2.released = b.released ∧ b2.releaseDate = b.releaseDate ∧
        b2.description = b.description := by
  induction pairs with
  | nil => intro rels k b hb; exact ⟨b, hb, rfl, rfl, rfl⟩
  | cons p rest ih =>
    intro rels k b hb
    rw [relFold_cons]
    by_cases hk : k = p.vname
    · subst hk
      have hgd : (alook beqJ rels p.vname).getD (rbInit p) = b := by rw [hb]; rfl
      have hstep : alook beqJ
          (aset beqJ rels p.vname
            (rbBump ((alook beqJ rels p.vname).getD (rbInit p)) tu status entry)) p.vname =
          some (rbBump b tu status entry) := by
        rw [hgd]
        exact alook_aset_self beqJ_lawful _ _ _
      obtain ⟨b2, hb2, hm⟩ := ih _ p.vname _ hstep
      obtain ⟨m1, m2, m3⟩ := rbBump_meta b tu status entry
      exact ⟨b2, hb2, by rw [hm.1, m1], by rw [hm.2.1, m2], by rw [hm.2.2, m3]⟩
    · have hstep : alook beqJ
          (aset beqJ rels p.vname
            (rbBump ((alook beqJ rels p.vname).getD (rbInit p)) tu status entry)) k =
          some b := by
        rw [alook_aset_ne beqJ_lawful _ _ _ _ hk]
        exact hb
      exact ih _ k b hstep

theorem relFold_untouched (pairs : List RelPair) (tu : String) (status : JVal)
    (entry : RelIssue) :
    ∀ (rels : List (JVal × ReleaseBucket)) (k : JVal),
      (∀ p ∈ pairs, p.vname ≠ k) →
      alook beqJ (relFold pairs tu status entry rels) k = alook beqJ rels k := by
  induction pairs with
  | nil => intro rels k _; rfl
  | cons p rest ih =>
    intro rels k hall
    rw [relFold_cons]
    have hne : k ≠ p.vname := fun hc => hall p (by simp) hc.symm
    rw [ih _ k (fun q hq => hall q (by simp [hq]))]
    exact alook_aset_ne beqJ_lawful _ _ _ _ hne

theorem relFold_create (pairs : List RelPair) (tu : String) (status : JVal)
    (entry : RelIssue) :
    ∀ (rels : List (JVal × ReleaseBucket)) (k : JVal),
      alook beqJ rels k = none →
      ∀ b2, alook beqJ (relFold pairs tu status entry rels) k = some b2 →
      ∃ pre p suf, pairs = pre ++ p :: suf ∧ p.vname = k ∧
        (∀ q ∈ pre, q.vname ≠ k) ∧ b2.released = p.released ∧
        b2.releaseDate = p.releaseDate ∧ b2.description = p.description := by
  induction pairs with
  | nil =>
    intro rels k hnone b2 hb2
    rw [relFold_nil, hnone] at hb2
    cases hb2
  | cons p rest ih =>
    intro rels k hnone b2 hb2
    rw [relFold_cons] at hb2
    by_cases hk : k = p.vname
    · subst hk
      have hgd : (alook beqJ rels p.vname).getD (rbInit p) = rbInit p := by
        rw [hnone]; rfl
      have hstep : alook beqJ
          (aset beqJ rels p.vname
            (rbBump ((alook beqJ rels p.vname).getD (rbInit p)) tu status entry)) p.vname =
          some (rbBump (rbInit p) tu status entry) := by
        rw [hgd]
        exact alook_aset_self beqJ_lawful _ _ _
      obtain ⟨b3, hb3, hm⟩ := relFold_meta rest tu status entry _ p.vname _ hstep
      have hb23 : b2 = b3 := by
        rw [hb2] at hb3
        exact (Option.some.injEq _ _).mp hb3
      subst hb23
      obtain ⟨m1, m2, m3⟩ := rbBump_meta (rbInit p) tu status entry
      refine ⟨[], p, rest, rfl, rfl, by simp, ?_, ?_, ?_⟩
      · rw [hm.1, m1]; rfl
      · rw [hm.2.1, m2]; rfl
      · rw [hm.2.2, m3]; rfl
    · have hnone2 : alook beqJ
          (aset beqJ rels p.vname
            (rbBump ((alook beqJ rels p.vname).getD (rbInit p)) tu status entry)) k = none := by
        rw [alook_aset_ne beqJ_lawful _ _ _ _ hk]
        exact hnone
      obtain ⟨pre, q, suf, heq, hq, hall, hm⟩ := ih _ k hnone2 b2 hb2
      refine ⟨p :: pre, q, suf, by rw [heq]; rfl, hq, ?_, hm⟩
      intro r hr
      rcases List.mem_cons.mp hr with hr | hr
      · rw [hr]; exact fun hc => hk hc.symm
      · exact hall r hr

/-- C5: release bucket metadata is frozen at creation — updating an
existing bucket never changes `released`, `releaseDate` or
`description`, and a freshly created bucket carries the metadata of the
first fix-version occurrence (of the creating issue) with that name. -/
theorem C5_release_metadata_frozen :
    (∀ st d k b, alook beqJ st.releases k = some b →
      ∃ b2, alook beqJ (detApply st d).releases k = some b2 ∧
        b2.released = b.released ∧ b2.releaseDate = b.releaseDate ∧
        b2.description = b.description) ∧
    (∀ st d k b2, alook beqJ st.releases k = none →
      alook beqJ (detApply st d).releases k = some b2 →
      ∃ pre p suf, d.release_pairs = pre ++ p :: suf ∧ p.vname = k ∧
        (∀ q ∈ pre, q.vname ≠ k) ∧ b2.released = p.released ∧
        b2.releaseDate = p.releaseDate ∧ b2.description = p.description) := by
  constructor
  · intro st d k b hb
    rw [detApply_releases]
    exact relFold_meta _ _ _ _ _ k b hb
  · intro st d k b2 hnone hb2
    rw [detApply_releases] at hb2
    exact relFold_create _ _ _ _ _ k hnone b2 hb2

/-- A fix-version dict with `released: true`. -/
def fvA : JVal := .obj [("name", .str "R1"), ("released", .bool true)]

/-- The same version name with `released: false`. -/
def fvB : JVal := .obj [("name", .str "R1"), ("released", .bool false)]

/-- First issue referencing `R1` (released). -/
def issueA : JVal := .obj [("fields", .obj [("fixVersions", .arr [fvA])])]

/-- Second issue referencing `R1` (unreleased). -/
def issueB : JVal := .obj [("fields", .obj [("fixVersions", .arr [fvB])])]

/-- The release pair of `issueB`. -/
def pairB : RelPair :=
  { vname := .str "R1", released := .bool false, releaseDate := .str "",
    description := .str "" }

/-- The digest of `issueB`. -/
def dIB : DetInfo :=
  dRec (.str "") (.str "") (.str "") (.str "") (.str "None") (.str "Unassigned")
    [fvB] [.str "R1"] none [("fixVersions", .arr [fvB])]
    (.str "") (.str "") (.str "") (.str "R1") "" [pairB]

/-- The release-list entry recorded for `issueA`. -/
def entryA : RelIssue :=
  { key := .str "", summary := .str "", status := .str "", type := .str "",
    priority := .str "None", assignee := .str "Unassigned", platform := "Unknown" }

/-- The `R1` bucket created by `issueA`. -/
def bucketA : ReleaseBucket :=
  { released := .bool true, releaseDate := .str "", description := .str "",
    bugs := 0, tasks := 0, subtasks := 0, stories := 0, total := 1,
    statuses := [(.str "", 1)], issues := [entryA] }

/-- The detailed state after processing `issueA`. -/
def stA : DetState :=
  { initDet with
      releases := [(.str "R1", bucketA)]
      assignee_workload := [(.str "Unassigned",
        { bugs := 0, tasks := 0, subtasks := 0, stories := 0, total := 1 })] }

/-- Witness for C5: applying the second issue's digest to the state that
already holds the `R1` bucket keeps the first issue's `released: true`
flag, and the two-issue end-to-end run agrees. -/
theorem C5_release_metadata_frozen_witness :
    (∃ b2, alook beqJ (detApply stA dIB).releases (.str "R1") = some b2 ∧
      b2.released = bucketA.released ∧ b2.releaseDate = bucketA.releaseDate ∧
      b2.description = bucketA.description) ∧
    (build_detailed_data [issueA, issueB]).map
      (fun st => (alook beqJ st.releases (.str "R1")).map (fun b => b.released)) =
      .ok (some (.bool true)) :=
  ⟨C5_release_metadata_frozen.1 stA dIB (.str "R1") bucketA (by decide), by decide⟩

/-! ### Release contribution counting -/

/-- The four type-name bucket matches of the aggregators. -/
def isType4 (tu : String) : Bool :=
  tu = "BUG" || tu = "TASK" || tu = "SUB-TASK" || tu = "STORY"

/-- Sum of a release bucket's four type counters. -/
def ReleaseBucket.four (b : ReleaseBucket) : Int :=
  b.bugs + b.tasks + b.subtasks + b.stories

/-- Sum of a sprint bucket's four type counters. -/
def SprintBucket.four (b : SprintBucket) : Int :=
  b.bugs + b.tasks + b.subtasks + b.stories

/-- A counter of the bucket at `k`, or `0` when the bucket is absent. -/
def relAt (rels : List (JVal × ReleaseBucket)) (k : JVal) (f : ReleaseBucket → Int) : Int :=
  match alook beqJ rels k with
  | some b => f b
  | none => 0

theorem rbBump_total (b : ReleaseBucket) (tu : String) (s : JVal) (e : RelIssue) :
    (rbBump b tu s e).total = b.total + 1 := by
  unfold rbBump; split_ifs <;> rfl

theorem rbBump_sumA (b : ReleaseBucket) (tu : String) (s : JVal) (e : RelIssue) :
    sumA (rbBump b tu s e).statuses = sumA b.statuses + 1 := by
  unfold rbBump; split_ifs <;> exact sumA_bump _ _

theorem rbBump_issues (b : ReleaseBucket) (tu : String) (s : JVal) (e : RelIssue) :
    (rbBump b tu s e).issues = b.issues ++ [e] := by
  unfold rbBump; split_ifs <;> rfl

theorem rbBump_four_t4 (b : ReleaseBucket) (tu : String) (s : JVal) (e : RelIssue)
    (h : isType4 tu = true) : (rbBump b tu s e).four = b.four + 1 := by
  simp only [isType4, Bool.or_eq_true, decide_eq_true_eq] at h
  unfold rbBump ReleaseBucket.four
  rcases h with ((h | h) | h) | h <;> subst h <;> simp <;> omega

theorem rbBump_four_not (b : ReleaseBucket) (tu : String) (s : JVal) (e : RelIssue)
    (h : isType4 tu = false) : (rbBump b tu s e).four = b.four := by
  simp only [isType4, Bool.or_eq_false_iff, decide_eq_false_iff_not] at h
  unfold rbBump ReleaseBucket.four
  rw [if_neg h.1.1.1, if_neg h.1.1.2, if_neg h.1.2, if_neg h.2]

/-- The bump of the bucket's four-counter sum, with the `isType4` case
distinction folded into an `ite`. -/
theorem rbBump_four (b : ReleaseBucket) (tu : String) (s : JVal) (e : RelIssue) :
    (rbBump b tu s e).four = b.four + (if isType4 tu then 1 else 0) := by
  by_cases hT : isType4 tu
  · rw [rbBump_four_t4 b tu s e hT, if_pos hT]
  · rw [rbBump_four_not b tu s e (by simp [hT]), if_neg hT]
    omega

theorem rbInit_counts (p : RelPair) :
    (rbInit p).total = 0 ∧ sumA (rbInit p).statuses = 0 ∧ (rbInit p).four = 0 ∧
    (rbInit p).issues = [] := ⟨rfl, rfl, rfl, rfl⟩

theorem relFold_touch (pairs : List RelPair) (tu : String) (status : JVal) (entry : RelIssue) :
    ∀ (rels : List (JVal × ReleaseBucket)) (k : JVal),
      (∃ p ∈ pairs, p.vname = k) →
      ∃ b2, alook beqJ (relFold pairs tu status entry rels) k = some b2 ∧
        b2.total = relAt rels k (fun b => b.total)
          + (pairs.countP (fun p => beqJ p.vname k) : Int) ∧
        sumA b2.statuses = relAt rels k (fun b => sumA b.statuses)
          + (pairs.countP (fun p => beqJ p.vname k) : Int) ∧
        b2.four = relAt rels k (fun b => b.four)
          + (if isType4 tu then (pairs.countP (fun p => beqJ p.vname k) : Int) else 0) ∧
        (b2.issues.length : Int) = relAt rels k (fun b => (b.issues.length : Int))
          + (pairs.countP (fun p => beqJ p.vname k) : Int) := by
  induction pairs with
  | nil => intro rels k hk; simp at hk
  | cons p rest ih =>
    intro rels k hk
    rw [relFold_cons]
    by_cases hpk : p.vname = k
    · subst hpk
      have hself : alook beqJ
          (aset beqJ rels p.vname
            (rbBump ((alook beqJ rels p.vname).getD (rbInit p)) tu status entry)) p.vname =
          some (rbBump ((alook beqJ rels p.vname).getD (rbInit p)) tu status entry) :=
        alook_aset_self beqJ_lawful _ _ _
      have hcntp : (List.countP (fun q => beqJ q.vname p.vname) (p :: rest)) =
          List.countP (fun q => beqJ q.vname p.vname) rest + 1 := by
        rw [List.countP_cons]
        simp [(beqJ_lawful p.vname p.vname).mpr rfl]
      set b0 := (alook beqJ rels p.vname).getD (rbInit p) with hb0
      have hb0c : b0.total = relAt rels p.vname (fun b => b.total) ∧
          sumA b0.statuses = relAt rels p.vname (fun b => sumA b.statuses) ∧
          b0.four = relAt rels p.vname (fun b => b.four) ∧
          (b0.issues.length : Int) =
            relAt rels p.vname (fun b => (b.issues.length : Int)) := by
        rw [hb0]
        cases hl : alook beqJ rels p.vname <;>
          simp [relAt, hl, rbInit, sumA, ReleaseBucket.four]
      by_cases hrest : ∃ q ∈ rest, q.vname = p.vname
      · obtain ⟨b2, hb2, t1, t2, t3, t4⟩ := ih _ p.vname hrest
        have hAt : ∀ f : ReleaseBucket → Int,
            relAt (aset beqJ rels p.vname (rbBump b0 tu status entry)) p.vname f =
              f (rbBump b0 tu status entry) := by
          intro f; unfold relAt; rw [hself]
        refine ⟨b2, hb2, ?_, ?_, ?_, ?_⟩ <;> rw [hcntp]
        · rw [t1, hAt, rbBump_total, hb0c.1]; push_cast; ring
        · rw [t2, hAt, rbBump_sumA, hb0c.2.1]; push_cast; ring
        · rw [t3, hAt, rbBump_four, hb0c.2.2.1]
          by_cases h4 : isType4 tu <;> simp [h4]
          ring
        · rw [t4, hAt]
          rw [show ((rbBump b0 tu status entry).issues.length : Int) =
              (b0.issues.length : Int) + 1 from by rw [rbBump_issues]; simp]
          rw [hb0c.2.2.2]; push_cast; ring
      · have hall : ∀ q ∈ rest, q.vname ≠ p.vname := by
          intro q hq hc; exact hrest ⟨q, hq, hc⟩
        have hcnt0 : List.countP (fun q => beqJ q.vname p.vname) rest = 0 := by
          rw [List.countP_eq_zero]
          intro q hq hc
          exact hall q hq ((beqJ_lawful _ _).mp hc)
        rw [relFold_untouched rest tu status entry _ p.vname hall]
        refine ⟨_, hself, ?_, ?_, ?_, ?_⟩ <;> rw [hcntp, hcnt0]
        · rw [rbBump_total, hb0c.1]; push_cast; ring
        · rw [rbBump_sumA, hb0c.2.1]; push_cast; ring
        · rw [rbBump_four, hb0c.2.2.1]
          by_cases h4 : isType4 tu <;> simp [h4]
        · rw [show ((rbBump b0 tu status entry).issues.length : Int) =
              (b0.issues.length : Int) + 1 from by rw [rbBump_issues]; simp]
          rw [hb0c.2.2.2]; push_cast; ring
    · have hne : k ≠ p.vname := fun hc => hpk hc.symm
      have hsame : alook beqJ
          (aset beqJ rels p.vname
            (rbBump ((alook beqJ rels p.vname).getD (rbInit p)) tu status entry)) k =
          alook beqJ rels k :=
        alook_aset_ne beqJ_lawful _ _ _ _ hne
      have hrest : ∃ q ∈ rest, q.vname = k := by
        rcases hk with ⟨q, hq, hqk⟩
        rcases List.mem_cons.mp hq with hq | hq
        · exact absurd (hq ▸ hqk) hpk
        · exact ⟨q, hq, hqk⟩
      obtain ⟨b2, hb2, t1, t2, t3, t4⟩ := ih _ k hrest
      have hrelAt : ∀ f, relAt (aset beqJ rels p.vname
          (rbBump ((alook beqJ rels p.vname).getD (rbInit p)) tu status entry)) k f =
          relAt rels k f := by
        intro f; unfold relAt; rw [hsame]
      have hcntp : List.countP (fun q => beqJ q.vname k) (p :: rest) =
          List.countP (fun q => beqJ q.vname k) rest := by
        rw [List.countP_cons]
        have : beqJ p.vname k = false := by
          rw [← Bool.not_eq_true]
          intro hc; exact hpk ((beqJ_lawful _ _).mp hc)
        simp [this]
      rw [hcntp]
      exact ⟨b2, hb2, by rw [t1, hrelAt], by rw [t2, hrelAt], by rw [t3, hrelAt],
             by rw [t4, hrelAt]⟩

theorem relFold_none (pairs : List RelPair) (tu : String) (status : JVal) (entry : RelIssue)
    (rels : List (JVal × ReleaseBucket)) (k : JVal)
    (hnone : alook beqJ (relFold pairs tu status entry rels) k = none) :
    alook beqJ rels k = none ∧ ∀ p ∈ pairs, p.vname ≠ k := by
  by_cases hex : ∃ p ∈ pairs, p.vname = k
  · obtain ⟨b2, hb2, _⟩ := relFold_touch pairs tu status entry rels k hex
    rw [hb2] at hnone
    cases hnone
  · have hall : ∀ p ∈ pairs, p.vname ≠ k := fun p hp hc => hex ⟨p, hp, hc⟩
    rw [relFold_untouched pairs tu status entry rels k hall] at hnone
    exact ⟨hnone, hall⟩

/-- The truthy fix-version names of an issue, in order (pure view of the
release loop's name filter). -/
def truthy_fix_names (fvs : List JVal) : List JVal :=
  fvs.filterMap (fun fv =>
    match fv with
    | .obj es =>
      (fun n => if truthy n then some n else none) ((es.lookup "name").getD (.str ""))
    | _ => none)

theorem relPairStep_shape (s : JVal) (acc : List RelPair) (fv : JVal)
    (acc' : List RelPair) (h : relPairStep s acc fv = .ok acc') :
    ∃ es, fv = .obj es ∧
      (let n := (es.lookup "name").getD (.str "")
       if truthy n then
         ∃ p, acc' = acc ++ [p] ∧ p.vname = n ∧ truthy p.vname = true ∧
           hashable p.vname = true
       else acc' = acc) := by
  unfold relPairStep at h
  obtain ⟨vname, hv, h⟩ := bind_ok_inv h
  obtain ⟨es, hes⟩ : ∃ es, fv = .obj es := by
    cases fv <;> simp [dictGet] at hv
    exact ⟨_, rfl⟩
  subst hes
  have hvn : vname = (es.lookup "name").getD (.str "") := by
    simp only [dictGet] at hv
    cases hl : es.lookup "name" with
    | none => rw [hl] at hv; simp at hv; simp [hl, hv]
    | some x => rw [hl] at hv; simp at hv; simp [hl, hv]
  refine ⟨es, rfl, ?_⟩
  simp only
  by_cases ht : truthy ((es.lookup "name").getD (.str ""))
  · rw [if_pos ht]
    rw [← hvn] at ht
    rw [if_pos ht] at h
    obtain ⟨u, hu, h⟩ := bind_ok_inv h
    obtain ⟨released, hr, h⟩ := bind_ok_inv h
    obtain ⟨releaseDate, hrd, h⟩ := bind_ok_inv h
    obtain ⟨description, hde, h⟩ := bind_ok_inv h
    obtain ⟨u2, hu2, h⟩ := bind_ok_inv h
    have h' : Except.ok (acc ++
        [({ vname := vname, released := released, releaseDate := releaseDate,
            description := description } : RelPair)]) = .ok acc' := h
    cases h'
    exact ⟨_, rfl, by simpa using hvn, ht, hguard_ok hu⟩
  · rw [if_neg ht]
    rw [← hvn] at ht
    rw [if_neg ht] at h
    have h' : Except.ok acc = .ok acc' := h
    cases h'
    rfl

theorem release_pairs_names_aux (s : JVal) :
    ∀ (fvs : List JVal) (acc ps : List RelPair),
      List.foldlM (relPairStep s) acc fvs = .ok ps →
      ps.map (fun p => p.vname) = acc.map (fun p => p.vname) ++ truthy_fix_names fvs := by
  intro fvs
  induction fvs with
  | nil =>
    intro acc ps h
    have h' : (Except.ok acc : Except String (List RelPair)) = .ok ps := h
    cases h'
    simp [truthy_fix_names]
  | cons fv rest ih =>
    intro acc ps h
    rw [foldlM_cons] at h
    obtain ⟨acc', hstep, h⟩ := bind_ok_inv h
    have h2 : List.foldlM (relPairStep s) acc' rest = .ok ps := h
    obtain ⟨es, hes, hshape⟩ := relPairStep_shape s acc fv acc' hstep
    subst hes
    simp only at hshape
    have hrest := ih acc' ps h2
    by_cases ht : truthy ((es.lookup "name").getD (.str ""))
    · rw [if_pos ht] at hshape
      obtain ⟨p, hacc', hpv, _, _⟩ := hshape
      subst hacc'
      rw [hrest]
      simp [truthy_fix_names, ht, hpv]
    · rw [if_neg ht] at hshape
      subst hshape
      rw [hrest]
      simp [truthy_fix_names, ht]

/-- The names of the recorded release pairs are exactly the truthy
fix-version names, in order. -/
theorem release_pairs_names (s : JVal) (fvs : List JVal) (ps : List RelPair)
    (h : release_pairs_of s fvs = .ok ps) :
    ps.map (fun p => p.vname) = truthy_fix_names fvs := by
  have := release_pairs_names_aux s fvs [] ps h
  simpa using this

/-- An issue carrying one fix-version whose name is the empty string. -/
def issueC6 : JVal :=
  .obj [("fields", .obj [("fixVersions", .arr [.obj [("name", .str "")]])])]

/-- Counterexample to C6 as stated: `issueC6` has exactly one
fix-version, yet the release loop skips its falsy name, so processing it
creates no release bucket at all (1 fix-version, 0 buckets touched). -/
theorem C6_counterexample :
    (detInfoOf issueC6).map (fun d => d.fix_versions.length) = .ok 1 ∧
    (build_detailed_data [issueC6]).map (fun st => st.releases.length) = .ok 0 :=
  ⟨by decide, by decide⟩

/-- C6 (amended): an issue contributes once per fix-version with a
truthy name, to the bucket keyed by that name — its recorded pairs name
exactly the truthy fix-version names; buckets with other keys are left
unchanged; each touched bucket's total and issues list grow by the
occurrence count; an issue with zero fix-versions touches no bucket. -/
theorem C6_release_contribution :
    ∀ (st : DetState) (issue : JVal) (d : DetInfo), detInfoOf issue = .ok d →
      (d.release_pairs.map (fun p => p.vname) = truthy_fix_names d.fix_versions) ∧
      (d.fix_versions = [] → (detApply st d).releases = st.releases) ∧
      (∀ k, (∀ p ∈ d.release_pairs, p.vname ≠ k) →
        alook beqJ (detApply st d).releases k = alook beqJ st.releases k) ∧
      (∀ k, (∃ p ∈ d.release_pairs, p.vname = k) →
        ∃ b2, alook beqJ (detApply st d).releases k = some b2 ∧
          b2.total = relAt st.releases k (fun b => b.total)
            + (d.release_pairs.countP (fun p => beqJ p.vname k) : Int) ∧
          (b2.issues.length : Int) = relAt st.releases k (fun b => (b.issues.length : Int))
            + (d.release_pairs.countP (fun p => beqJ p.vname k) : Int)) := by
  intro st issue d hd
  have hspec := detInfoOf_spec issue d hd
  have hrp : release_pairs_of d.status_name d.fix_versions = .ok d.release_pairs :=
    hspec.2.2.2.2.2.2.2.2.2.2.2.2.2
  refine ⟨release_pairs_names _ _ _ hrp, ?_, ?_, ?_⟩
  · intro hfv
    rw [hfv] at hrp
    have hok : (Except.ok [] : Except String (List RelPair)) = .ok d.release_pairs := hrp
    have hemp : d.release_pairs = [] := ((Except.ok.injEq _ _).mp hok).symm
    rw [detApply_releases, hemp, relFold_nil]
  · intro k hall
    rw [detApply_releases]
    exact relFold_untouched _ _ _ _ _ k hall
  · intro k hex
    rw [detApply_releases]
    obtain ⟨b2, hb2, t1, _, _, t4⟩ := relFold_touch _ _ _ _ st.releases k hex
    exact ⟨b2, hb2, t1, t4⟩

/-- Witness for the amended C6 at `initDet`, `issueB` and key `R1`. -/
theorem C6_release_contribution_witness :
    (dIB.release_pairs.map (fun p => p.vname) = truthy_fix_names dIB.fix_versions) ∧
    (∃ b2, alook beqJ (detApply initDet dIB).releases (JVal.str "R1") = some b2 ∧
      b2.total = relAt initDet.releases (JVal.str "R1") (fun b => b.total)
        + (dIB.release_pairs.countP (fun p => beqJ p.vname (JVal.str "R1")) : Int) ∧
      (b2.issues.length : Int) =
        relAt initDet.releases (JVal.str "R1") (fun b => (b.issues.length : Int))
        + (dIB.release_pairs.countP (fun p => beqJ p.vname (JVal.str "R1")) : Int)) := by
  have h := C6_release_contribution initDet issueB dIB (by decide)
  exact ⟨h.1, h.2.2.2 (JVal.str "R1") (by decide)⟩

/-! ### Bucket totals: status-sum and type-counter decomposition -/

theorem sbBump_total (b : SprintBucket) (tu : String) (s : JVal) :
    (sbBump b tu s).total = b.total + 1 := by
  unfold sbBump; split_ifs <;> rfl

theorem sbBump_sumA (b : SprintBucket) (tu : String) (s : JVal) :
    sumA (sbBump b tu s).statuses = sumA b.statuses + 1 := by
  unfold sbBump; split_ifs <;> exact sumA_bump _ _

theorem sbBump_four_t4 (b : SprintBucket) (tu : String) (s : JVal)
    (h : isType4 tu = true) : (sbBump b tu s).four = b.four + 1 := by
  simp only [isType4, Bool.or_eq_true, decide_eq_true_eq] at h
  unfold sbBump SprintBucket.four
  rcases h with ((h | h) | h) | h <;> subst h <;> simp <;> omega

theorem sbBump_four_not (b : SprintBucket) (tu : String) (s : JVal)
    (h : isType4 tu = false) : (sbBump b tu s).four = b.four := by
  simp only [isType4, Bool.or_eq_false_iff, decide_eq_false_iff_not] at h
  unfold sbBump SprintBucket.four
  rw [if_neg h.1.1.1, if_neg h.1.1.2, if_neg h.1.2, if_neg h.2]

theorem sbBump_four (b : SprintBucket) (tu : String) (s : JVal) :
    (sbBump b tu s).four = b.four + (if isType4 tu then 1 else 0) := by
  by_cases hT : isType4 tu
  · rw [sbBump_four_t4 b tu s hT, if_pos hT]
  · rw [sbBump_four_not b tu s (by simp [hT]), if_neg hT]
    omega

/-- How many processed issues contributed to the sprint bucket `k` with
an issue type outside the four counted ones. -/
def sprintOther (issues : List JVal) (k : JVal) : Nat :=
  issues.countP (fun i =>
    match detInfoOf i with
    | .ok d => beqJ d.sprint_name k && truthy d.sprint_name && !(isType4 d.type_upper)
    | .error _ => false)

/-- How many contributions the release bucket `k` received from
processed issues of a type outside the four counted ones (counting one
per matching fix-version occurrence). -/
def relOther (issues : List JVal) (k : JVal) : Nat :=
  (issues.map (fun i =>
    match detInfoOf i with
    | .ok d =>
      if isType4 d.type_upper then 0
      else d.release_pairs.countP (fun p => beqJ p.vname k)
    | .error _ => 0)).sum

theorem sprintOther_append (pre : List JVal) (a : JVal) (k : JVal) :
    sprintOther (pre ++ [a]) k = sprintOther pre k +
      (if (match detInfoOf a with
           | .ok d => beqJ d.sprint_name k && truthy d.sprint_name && !(isType4 d.type_upper)
           | .error _ => false) then 1 else 0) := by
  unfold sprintOther
  rw [List.countP_append]
  simp [List.countP_cons]

theorem relOther_append (pre : List JVal) (a : JVal) (k : JVal) :
    relOther (pre ++ [a]) k = relOther pre k +
      (match detInfoOf a with
       | .ok d =>
         if isType4 d.type_upper then 0
         else d.release_pairs.countP (fun p => beqJ p.vname k)
       | .error _ => 0) := by
  unfold relOther
  rw [List.map_append, List.sum_append]
  simp

/-- The running bucket invariant: in every sprint and release bucket the
total equals the status-breakdown sum, and exceeds the four type
counters by exactly the other-typed contribution count; absent buckets
have no contributions. -/
def BucketInv (pre : List JVal) (st : DetState) : Prop :=
  (∀ k b, alook beqJ st.sprints k = some b →
    b.total = sumA b.statuses ∧ b.total = b.four + (sprintOther pre k : Int)) ∧
  (∀ k, alook beqJ st.sprints k = none → sprintOther pre k = 0) ∧
  (∀ k b, alook beqJ st.releases k = some b →
    b.total = sumA b.statuses ∧ b.total = b.four + (relOther pre k : Int)) ∧
  (∀ k, alook beqJ st.releases k = none → relOther pre k = 0)

theorem detStep_bucketInv (pre : List JVal) (st : DetState) (a : JVal) (st' : DetState)
    (hP : BucketInv pre st) (h : detStep st a = .ok st') : BucketInv (pre ++ [a]) st' := by
  obtain ⟨d0, hd0, hst'⟩ := detStep_ok st a st' h
  subst hst'
  obtain ⟨hs_some, hs_none, hr_some, hr_none⟩ := hP
  have hsO : ∀ k, sprintOther (pre ++ [a]) k = sprintOther pre k +
      (if beqJ d0.sprint_name k && truthy d0.sprint_name && !(isType4 d0.type_upper)
       then 1 else 0) := by
    intro k
    rw [sprintOther_append, hd0]
  have hrO : ∀ k, relOther (pre ++ [a]) k = relOther pre k +
      (if isType4 d0.type_upper then 0
       else d0.release_pairs.countP (fun p => beqJ p.vname k)) := by
    intro k
    rw [relOther_append, hd0]
  refine ⟨?_, ?_, ?_, ?_⟩
  · intro k b hb
    rw [detApply_sprints] at hb
    by_cases htr : truthy d0.sprint_name
    · rw [if_pos htr] at hb
      by_cases hk : k = d0.sprint_name
      · subst hk
        rw [alook_aset_self beqJ_lawful] at hb
        have hbeq : b = sbBump ((alook beqJ st.sprints d0.sprint_name).getD sbZero)
            d0.type_upper d0.status_name := ((Option.some.injEq _ _).mp hb).symm
        set b0 := (alook beqJ st.sprints d0.sprint_name).getD sbZero with hb0
        have hb0inv : b0.total = sumA b0.statuses ∧
            b0.total = b0.four + (sprintOther pre d0.sprint_name : Int) := by
          rw [hb0]
          cases hl : alook beqJ st.sprints d0.sprint_name with
          | some bb => simpa using hs_some d0.sprint_name bb hl
          | none =>
            have := hs_none d0.sprint_name hl
            simp [sbZero, sumA, SprintBucket.four, this]
        rw [hbeq, sbBump_total, sbBump_sumA, sbBump_four, hsO d0.sprint_name]
        have hbeqk : beqJ d0.sprint_name d0.sprint_name = true := (beqJ_lawful _ _).mpr rfl
        constructor
        · rw [hb0inv.1]
        · rw [hb0inv.2]
          by_cases hT : isType4 d0.type_upper <;>
            simp [hT, hbeqk, htr] <;> ring
      · rw [alook_aset_ne beqJ_lawful _ _ _ _ hk] at hb
        have hbeqk : beqJ d0.sprint_name k = false := by
          rw [← Bool.not_eq_true]
          intro hc
          exact hk ((beqJ_lawful _ _).mp hc).symm
        rw [hsO k]
        simp only [hbeqk, Bool.false_and, if_false, Nat.add_zero]
        exact hs_some k b hb
    · rw [if_neg htr] at hb
      have htrf : truthy d0.sprint_name = false := by
        cases hc : truthy d0.sprint_name
        · rfl
        · exact absurd hc htr
      rw [hsO k]
      simp only [htrf, Bool.and_false, Bool.false_and, if_false, Nat.add_zero]
      exact hs_some k b hb
  · intro k hb
    rw [detApply_sprints] at hb
    by_cases htr : truthy d0.sprint_name
    · rw [if_pos htr] at hb
      by_cases hk : k = d0.sprint_name
      · subst hk
        rw [alook_aset_self beqJ_lawful] at hb
        cases hb
      · rw [alook_aset_ne beqJ_lawful _ _ _ _ hk] at hb
        have hbeqk : beqJ d0.sprint_name k = false := by
          rw [← Bool.not_eq_true]
          intro hc
          exact hk ((beqJ_lawful _ _).mp hc).symm
        rw [hsO k]
        simp only [hbeqk, Bool.false_and, if_false, Nat.add_zero]
        exact hs_none k hb
    · rw [if_neg htr] at hb
      have htrf : truthy d0.sprint_name = false := by
        cases hc : truthy d0.sprint_name
        · rfl
        · exact absurd hc htr
      rw [hsO k]
      simp only [htrf, Bool.and_false, Bool.false_and, if_false, Nat.add_zero]
      exact hs_none k hb
  · intro k b hb
    rw [detApply_releases] at hb
    by_cases hex : ∃ p ∈ d0.release_pairs, p.vname = k
    · obtain ⟨b2, hb2, t1, t2, t3, _⟩ :=
        relFold_touch d0.release_pairs d0.type_upper d0.status_name (relEntry d0)
          st.releases k hex
      rw [hb2] at hb
      have hbeq : b = b2 := ((Option.some.injEq _ _).mp hb).symm
      subst hbeq
      have hprev : relAt st.releases k (fun b => b.total) =
            relAt st.releases k (fun b => sumA b.statuses) ∧
          relAt st.releases k (fun b => b.total) =
            relAt st.releases k (fun b => b.four) + (relOther pre k : Int) := by
        unfold relAt
        cases hl : alook beqJ st.releases k with
        | some bb => simpa using hr_some k bb hl
        | none =>
          have := hr_none k hl
          simp [this]
      rw [hrO k]
      constructor
      · rw [t1, t2, hprev.1]
      · rw [t1, t3, hprev.2]
        by_cases hT : isType4 d0.type_upper <;> simp [hT] <;> ring
    · have hall : ∀ p ∈ d0.release_pairs, p.vname ≠ k := fun p hp hc => hex ⟨p, hp, hc⟩
      rw [relFold_untouched _ _ _ _ _ k hall] at hb
      have hcnt0 : d0.release_pairs.countP (fun p => beqJ p.vname k) = 0 := by
        rw [List.countP_eq_zero]
        intro q hq hc
        exact hall q hq ((beqJ_lawful _ _).mp hc)
      rw [hrO k, hcnt0]
      have : (if isType4 d0.type_upper then 0 else 0) = 0 := by split_ifs <;> rfl
      rw [this, Nat.add_zero]
      exact hr_some k b hb
  · intro k hb
    rw [detApply_releases] at hb
    obtain ⟨hprev, hall⟩ :=
      relFold_none d0.release_pairs d0.type_upper d0.status_name (relEntry d0)
        st.releases k hb
    have hcnt0 : d0.release_pairs.countP (fun p => beqJ p.vname k) = 0 := by
      rw [List.countP_eq_zero]
      intro q hq hc
      exact hall q hq ((beqJ_lawful _ _).mp hc)
    rw [hrO k, hcnt0]
    have : (if isType4 d0.type_upper then 0 else 0) = 0 := by split_ifs <;> rfl
    rw [this, Nat.add_zero]
    exact hr_none k hprev

theorem build_bucketInv (issues : List JVal) (st : DetState)
    (h : build_detailed_data issues = .ok st) : BucketInv issues st := by
  have hbase : BucketInv [] initDet := by
    refine ⟨?_, ?_, ?_, ?_⟩ <;> intro k <;> simp [initDet, alook, sprintOther, relOther]
  have := foldlM_inv_pre detStep BucketInv detStep_bucketInv issues [] initDet st hbase h
  simpa using this

/-- C10: in every sprint and release bucket of the Detailed Aggregate,
the `total` equals the sum of the `statuses` breakdown and is at least
the sum of the four type counters, with equality exactly when no
contributing issue had a type outside BUG/TASK/SUB-TASK/STORY (the
other-typed contribution counters `sprintOther`/`relOther` are zero). -/
theorem C10_bucket_totals :
    ∀ issues st, build_detailed_data issues = .ok st →
      (∀ k b, alook beqJ st.sprints k = some b →
        b.total = sumA b.statuses ∧
        b.total = b.bugs + b.tasks + b.subtasks + b.stories + (sprintOther issues k : Int) ∧
        b.bugs + b.tasks + b.subtasks + b.stories ≤ b.total ∧
        (b.bugs + b.tasks + b.subtasks + b.stories = b.total ↔ sprintOther issues k = 0)) ∧
      (∀ k b, alook beqJ st.releases k = some b →
        b.total = sumA b.statuses ∧
        b.total = b.bugs + b.tasks + b.subtasks + b.stories + (relOther issues k : Int) ∧
        b.bugs + b.tasks + b.subtasks + b.stories ≤ b.total ∧
        (b.bugs + b.tasks + b.subtasks + b.stories = b.total ↔ relOther issues k = 0)) := by
  intro issues st h
  obtain ⟨hs_some, _, hr_some, _⟩ := build_bucketInv issues st h
  constructor
  · intro k b hb
    obtain ⟨h1, h2⟩ := hs_some k b hb
    have h2' : b.total = b.bugs + b.tasks + b.subtasks + b.stories +
        (sprintOther issues k : Int) := by
      rw [h2]; unfold SprintBucket.four; ring
    refine ⟨h1, h2', by omega, ?_⟩
    constructor
    · intro he; omega
    · intro he; omega
  · intro k b hb
    obtain ⟨h1, h2⟩ := hr_some k b hb
    have h2' : b.total = b.bugs + b.tasks + b.subtasks + b.stories +
        (relOther issues k : Int) := by
      rw [h2]; unfold ReleaseBucket.four; ring
    refine ⟨h1, h2', by omega, ?_⟩
    constructor
    · intro he; omega
    · intro he; omega

/-- Witness for C10 at the single-issue list `[issueW3]` (its type name
is empty, hence other-typed): the `S1` sprint bucket has total 1, status
sum 1, four-counter sum 0, and one other-typed contribution. -/
theorem C10_bucket_totals_witness :
    sprintBucketW3.total = sumA sprintBucketW3.statuses ∧
    sprintBucketW3.total = sprintBucketW3.bugs + sprintBucketW3.tasks +
      sprintBucketW3.subtasks + sprintBucketW3.stories +
      (sprintOther [issueW3] (JVal.str "S1") : Int) ∧
    sprintBucketW3.bugs + sprintBucketW3.tasks + sprintBucketW3.subtasks +
      sprintBucketW3.stories ≤ sprintBucketW3.total ∧
    (sprintBucketW3.bugs + sprintBucketW3.tasks + sprintBucketW3.subtasks +
      sprintBucketW3.stories = sprintBucketW3.total ↔
      sprintOther [issueW3] (JVal.str "S1") = 0) :=
  (C10_bucket_totals [issueW3] stW3 (by decide)).1 (JVal.str "S1") sprintBucketW3 (by decide)

/-! ### Totality over well-shaped issue records -/

/-- The value is a string. -/
def isStr : JVal → Bool
  | .str _ => true
  | _ => false

/-- `dict.get` on an actual dict always succeeds with the looked-up or
default value. -/
theorem dictGet_obj (fs : List (String × JVal)) (k : String) (dflt : JVal) :
    dictGet (.obj fs) k dflt = .ok ((fs.lookup k).getD dflt) := by
  cases h : fs.lookup k <;> simp [dictGet, h]

/-- A `mapM` whose function succeeds on every element succeeds. -/
theorem mapM_ok {α β : Type} (f : α → Except String β) :
    ∀ (l : List α), (∀ a ∈ l, ∃ b, f a = .ok b) → ∃ r, l.mapM f = .ok r := by
  intro l
  induction l with
  | nil => intro _; exact ⟨[], rfl⟩
  | cons a t ih =>
    intro h
    obtain ⟨b, hb⟩ := h a (by simp)
    obtain ⟨r, hr⟩ := ih (fun x hx => h x (by simp [hx]))
    refine ⟨b :: r, ?_⟩
    rw [List.mapM_cons, hb, ok_bind, hr, ok_bind]
    rfl

/-- A `foldlM` whose step succeeds from every state succeeds. -/
theorem foldlM_ok {σ α : Type} (f : σ → α → Except String σ) :
    ∀ (l : List α), (∀ s : σ, ∀ a ∈ l, ∃ s', f s a = .ok s') →
      ∀ s : σ, ∃ r, List.foldlM f s l = .ok r := by
  intro l
  induction l with
  | nil => intro _ s; exact ⟨s, rfl⟩
  | cons a t ih =>
    intro h s
    obtain ⟨s1, hs1⟩ := h s a (by simp)
    obtain ⟨r, hr⟩ := ih (fun s2 x hx => h s2 x (by simp [hx])) s1
    exact ⟨r, by rw [foldlM_cons, hs1, ok_bind]; exact hr⟩

theorem pyUpper_isStr (v : JVal) (h : isStr v = true) : ∃ u, pyUpper v = .ok u := by
  cases v <;> simp [isStr] at h
  exact ⟨_, rfl⟩

theorem pyStrVal_isStr (v : JVal) (h : isStr v = true) : ∃ u, pyStrVal v = .ok u := by
  cases v <;> simp [isStr] at h
  exact ⟨_, rfl⟩

/-- An object whose `name` entry, if present, is a string. -/
def wfNameStr (v : JVal) : Bool :=
  match v with
  | .obj es =>
    match es.lookup "name" with
    | none => true
    | some (.str _) => true
    | some _ => false
  | _ => false

/-- `labels`, if present, is a list of strings. -/
def wfLabels (fs : List (String × JVal)) : Bool :=
  match fs.lookup "labels" with
  | none => true
  | some (.arr items) => items.all isStr
  | some _ => false

/-- `components`, if present, is a list of objects with string (or
absent) names. -/
def wfComponents (fs : List (String × JVal)) : Bool :=
  match fs.lookup "components" with
  | none => true
  | some (.arr items) => items.all wfNameStr
  | some _ => false

/-- `summary`, if present, is a string or falsy. -/
def wfSummary (fs : List (String × JVal)) : Bool :=
  match fs.lookup "summary" with
  | none => true
  | some v => !truthy v || isStr v

/-- A well-shaped custom-field object: the value chosen by the extractor
(`value`, or `name` when `value` is falsy) is a string, and when the
object qualifies as a sprint carrier (both `name` and `state` present)
its `name` is hashable. -/
def wfCustomObj (es : List (String × JVal)) : Bool :=
  isStr (if truthy ((es.lookup "value").getD (.str "")) then (es.lookup "value").getD (.str "")
         else (es.lookup "name").getD (.str "")) &&
  (!((es.lookup "name").isSome && (es.lookup "state").isSome) ||
    hashable ((es.lookup "name").getD .null))

/-- A well-shaped element of a custom-field value: objects must be
well-shaped, everything else is skipped by the code. -/
def wfCustomElem (it : JVal) : Bool :=
  match it with
  | .obj es => wfCustomObj es
  | _ => true

/-- A well-shaped truthy custom-field value. -/
def wfCustomVal (v : JVal) : Bool :=
  match v with
  | .arr items => items.all wfCustomElem
  | _ => wfCustomElem v

/-- Every truthy `customfield_*` value is well-shaped. -/
def wfCustoms (fs : List (String × JVal)) : Bool :=
  fs.all (fun kv => !(startsW kv.1 "customfield_" && truthy kv.2) || wfCustomVal kv.2)

/-- `status` / `issuetype`, if present, is an object with string (or
absent) `name`. -/
def wfStatusLike (fs : List (String × JVal)) (k : String) : Bool :=
  match fs.lookup k with
  | none => true
  | some v => wfNameStr v

/-- The `sub` entry of an object, if present, is a string. -/
def wfSubStr (es : List (String × JVal)) (sub : String) : Bool :=
  match es.lookup sub with
  | none => true
  | some (.str _) => true
  | some _ => false

/-- A present `priority` / `assignee` value: falsy, or an object whose
`sub` entry (`name` / `displayName`), if present, is a string. -/
def wfPersonVal (v : JVal) (sub : String) : Bool :=
  if truthy v then
    match v with
    | .obj es => wfSubStr es sub
    | _ => false
  else true

/-- `priority` / `assignee`: absent, or a well-shaped present value. -/
def wfPerson (fs : List (String × JVal)) (k sub : String) : Bool :=
  match fs.lookup k with
  | none => true
  | some v => wfPersonVal v sub

/-- A date field: absent, falsy, or a string. -/
def wfDate (fs : List (String × JVal)) (k : String) : Bool :=
  match fs.lookup k with
  | none => true
  | some v => !truthy v || isStr v

/-- A fix-version name value: falsy (skipped), or a string. -/
def wfNameVal (nv : JVal) : Bool := !truthy nv || isStr nv

/-- The `name` entry of a fix-version object, if present, is falsy or a
string. -/
def wfFixName (es : List (String × JVal)) : Bool :=
  match es.lookup "name" with
  | none => true
  | some nv => wfNameVal nv

/-- A well-shaped fix-version: an object whose `name`, if present, is a
string or falsy. -/
def wfFixElem (fv : JVal) : Bool :=
  match fv with
  | .obj es => wfFixName es
  | _ => false

/-- A present `fixVersions` value: falsy, or a list of well-shaped
fix-versions. -/
def wfFixVal (v : JVal) : Bool :=
  if truthy v then
    match v with
    | .arr items => items.all wfFixElem
    | _ => false
  else true

/-- `fixVersions`: absent, or a well-shaped present value. -/
def wfFix (fs : List (String × JVal)) : Bool :=
  match fs.lookup "fixVersions" with
  | none => true
  | some v => wfFixVal v

/-- A well-shaped `fields` dict: every field the pipeline touches has one
of the shapes the code handles without raising. -/
def wfFields (fs : List (String × JVal)) : Bool :=
  wfLabels fs && wfComponents fs && wfSummary fs && wfCustoms fs &&
  wfStatusLike fs "status" && wfStatusLike fs "issuetype" &&
  wfPerson fs "priority" "name" && wfPerson fs "assignee" "displayName" &&
  wfDate fs "created" && wfDate fs "updated" && wfDate fs "duedate" && wfFix fs

/-- The `fields` value, when present, must be a well-shaped dict. -/
def wfFieldsVal (v : JVal) : Bool :=
  match v with
  | .obj fs => wfFields fs
  | _ => false

/-- A well-shaped issue record: a dict whose `fields`, when present, is a
well-shaped `fields` dict.  Absent fields are fine — the defaults absorb
them; only a present field of a shape the code cannot handle is
excluded. -/
def WFissue (issue : JVal) : Bool :=
  match issue with
  | .obj ies =>
    match ies.lookup "fields" with
    | none => true
    | some v => wfFieldsVal v
  | _ => false

theorem wfFields_parts (fs : List (String × JVal)) (h : wfFields fs = true) :
    wfLabels fs = true ∧ wfComponents fs = true ∧ wfSummary fs = true ∧
    wfCustoms fs = true ∧ wfStatusLike fs "status" = true ∧
    wfStatusLike fs "issuetype" = true ∧ wfPerson fs "priority" "name" = true ∧
    wfPerson fs "assignee" "displayName" = true ∧ wfDate fs "created" = true ∧
    wfDate fs "updated" = true ∧ wfDate fs "duedate" = true ∧ wfFix fs = true := by
  unfold wfFields at h
  simp only [Bool.and_eq_true] at h
  obtain ⟨⟨⟨⟨⟨⟨⟨⟨⟨⟨⟨h1, h2⟩, h3⟩, h4⟩, h5⟩, h6⟩, h7⟩, h8⟩, h9⟩, h10⟩, h11⟩, h12⟩ := h
  exact ⟨h1, h2, h3, h4, h5, h6, h7, h8, h9, h10, h11, h12⟩

/-- Decomposition of a well-shaped issue: it is a dict, its `fields` get
succeeds with a dict, and that dict is well-shaped (vacuously, the empty
dict, when `fields` is absent). -/
theorem WFissue_fields (issue : JVal) (h : WFissue issue = true) :
    ∃ ies fs, issue = .obj ies ∧
      dictGet issue "fields" (.obj []) = .ok (.obj fs) ∧ wfFields fs = true := by
  cases issue with
  | obj ies =>
    refine ⟨ies, ?_⟩
    have h' : (match ies.lookup "fields" with
               | none => true
               | some v => wfFieldsVal v) = true := h
    cases hf : ies.lookup "fields" with
    | none =>
      exact ⟨[], rfl, by simp [dictGet, hf], by decide⟩
    | some v =>
      rw [hf] at h'
      have h'' : wfFieldsVal v = true := h'
      cases v with
      | obj fs => exact ⟨fs, rfl, by simp [dictGet, hf], h''⟩
      | null => simp [wfFieldsVal] at h''
      | bool b => simp [wfFieldsVal] at h''
      | num n => simp [wfFieldsVal] at h''
      | str s => simp [wfFieldsVal] at h''
      | arr l => simp [wfFieldsVal] at h''
  | null => simp [WFissue] at h
  | bool b => simp [WFissue] at h
  | num n => simp [WFissue] at h
  | str s => simp [WFissue] at h
  | arr l => simp [WFissue] at h

theorem labelsOf_ok (fs : List (String × JVal)) (h : wfLabels fs = true) :
    ∃ r, labelsOf (.obj fs) = .ok r := by
  unfold labelsOf
  unfold wfLabels at h
  simp only [dictGet_obj, ok_bind]
  cases hk : fs.lookup "labels" with
  | none => exact ⟨[], rfl⟩
  | some v =>
    rw [hk] at h
    cases v with
    | arr items =>
      simp only [Option.getD_some]
      have hiter : pyIter (.arr items) = .ok items := rfl
      rw [hiter, ok_bind]
      refine mapM_ok pyUpper items ?_
      intro a ha
      rw [List.all_eq_true] at h
      exact pyUpper_isStr a (h a ha)
    | null => simp at h
    | bool b => simp at h
    | num n => simp at h
    | str s => simp at h
    | obj es => simp at h

theorem componentsOf_ok (fs : List (String × JVal)) (h : wfComponents fs = true) :
    ∃ r, componentsOf (.obj fs) = .ok r := by
  unfold componentsOf
  unfold wfComponents at h
  simp only [dictGet_obj, ok_bind]
  cases hk : fs.lookup "components" with
  | none => exact ⟨[], rfl⟩
  | some v =>
    rw [hk] at h
    cases v with
    | arr items =>
      simp only [Option.getD_some]
      have hiter : pyIter (.arr items) = .ok items := rfl
      rw [hiter, ok_bind]
      refine mapM_ok _ items ?_
      intro c hc
      rw [List.all_eq_true] at h
      have hcwf := h c hc
      cases c with
      | obj es =>
        simp only [dictGet_obj, ok_bind]
        have hcwf' : (match es.lookup "name" with
                      | none => true
                      | some (.str _) => true
                      | some _ => false) = true := hcwf
        cases hn : es.lookup "name" with
        | none => exact ⟨_, rfl⟩
        | some nv =>
          rw [hn] at hcwf'
          simp only [Option.getD_some]
          cases nv with
          | str s => exact ⟨_, rfl⟩
          | null => simp at hcwf'
          | bool b => simp at hcwf'
          | num n => simp at hcwf'
          | arr l => simp at hcwf'
          | obj o => simp at hcwf'
      | null => simp [wfNameStr] at hcwf
      | bool b => simp [wfNameStr] at hcwf
      | num n => simp [wfNameStr] at hcwf
      | str s => simp [wfNameStr] at hcwf
      | arr l => simp [wfNameStr] at hcwf
    | null => simp at h
    | bool b => simp at h
    | num n => simp at h
    | str s => simp at h
    | obj es => simp at h

theorem summaryOf_ok (fs : List (String × JVal)) (h : wfSummary fs = true) :
    ∃ r, summaryOf (.obj fs) = .ok r := by
  unfold summaryOf
  unfold wfSummary at h
  simp only [dictGet_obj, ok_bind]
  cases hk : fs.lookup "summary" with
  | none => exact ⟨_, rfl⟩
  | some v =>
    rw [hk] at h
    have h' : (!truthy v || isStr v) = true := h
    simp only [Option.getD_some]
    by_cases ht : truthy v = true
    · rw [if_pos ht]
      rw [ht] at h'
      simp only [Bool.not_true, Bool.false_or] at h'
      exact pyUpper_isStr v h'
    · rw [if_neg ht]
      exact ⟨_, rfl⟩

theorem extractCustom_obj_ok (es : List (String × JVal)) (h : wfCustomObj es = true) :
    ∃ u, pyUpper (if truthy ((es.lookup "value").getD (.str "")) then
        (es.lookup "value").getD (.str "") else (es.lookup "name").getD (.str "")) = .ok u := by
  unfold wfCustomObj at h
  rw [Bool.and_eq_true] at h
  exact pyUpper_isStr _ h.1

theorem extractCustom_ok (v : JVal) (h : wfCustomVal v = true) :
    ∃ r, extractCustom v = .ok r := by
  cases v with
  | str s => exact ⟨_, rfl⟩
  | null => exact ⟨_, rfl⟩
  | bool b => exact ⟨_, rfl⟩
  | num n => exact ⟨_, rfl⟩
  | obj es =>
    unfold extractCustom
    simp only [dictGet_obj, ok_bind]
    obtain ⟨u, hu⟩ := extractCustom_obj_ok es h
    rw [hu, ok_bind]
    exact ⟨_, rfl⟩
  | arr items =>
    unfold extractCustom
    unfold wfCustomVal at h
    refine foldlM_ok _ items ?_ []
    intro acc it hit
    rw [List.all_eq_true] at h
    have hwf := h it hit
    cases it with
    | str s => exact ⟨_, rfl⟩
    | null => exact ⟨_, rfl⟩
    | bool b => exact ⟨_, rfl⟩
    | num n => exact ⟨_, rfl⟩
    | arr l => exact ⟨_, rfl⟩
    | obj es =>
      simp only [dictGet_obj, ok_bind]
      obtain ⟨u, hu⟩ := extractCustom_obj_ok es hwf
      rw [hu, ok_bind]
      exact ⟨_, rfl⟩

theorem custom_vals_ok (fs : List (String × JVal)) (h : wfCustoms fs = true) :
    ∃ r, custom_vals_of (.obj fs) = .ok r := by
  unfold custom_vals_of
  have hitems : dictItems (.obj fs) = .ok fs := rfl
  rw [hitems, ok_bind]
  refine foldlM_ok _ fs ?_ []
  intro acc kv hkv
  unfold wfCustoms at h
  rw [List.all_eq_true] at h
  have hwf := h kv hkv
  by_cases hc : (startsW kv.1 "customfield_" && truthy kv.2) = true
  · rw [if_pos hc]
    have hv : wfCustomVal kv.2 = true := by
      have hwf' : (!(startsW kv.1 "customfield_" && truthy kv.2) || wfCustomVal kv.2) = true := hwf
      rw [hc] at hwf'
      simpa using hwf'
    obtain ⟨vs, hvs⟩ := extractCustom_ok kv.2 hv
    rw [hvs, ok_bind]
    exact ⟨_, rfl⟩
  · rw [if_neg hc]
    exact ⟨_, rfl⟩

theorem all_text_ok (issue : JVal) (h : WFissue issue = true) :
    ∃ t, all_text_of issue = .ok t := by
  obtain ⟨ies, fs, hie, hfs, hw⟩ := WFissue_fields issue h
  obtain ⟨hlab, hcomp, hsum, hcust, _⟩ := wfFields_parts fs hw
  obtain ⟨ls, hls⟩ := labelsOf_ok fs hlab
  obtain ⟨cs, hcs⟩ := componentsOf_ok fs hcomp
  obtain ⟨ss, hss⟩ := summaryOf_ok fs hsum
  obtain ⟨vs, hvs⟩ := custom_vals_ok fs hcust
  refine ⟨String.intercalate " " (ls ++ cs ++ vs ++ [ss]), ?_⟩
  unfold all_text_of
  simp only [hfs, hls, hcs, hss, hvs, ok_bind]
  rfl

/-- Over a well-shaped issue the classifier never raises. -/
theorem detect_platform_ok (issue : JVal) (h : WFissue issue = true) :
    ∃ p, detect_platform issue = .ok p := by
  obtain ⟨t, ht⟩ := all_text_ok issue h
  refine ⟨firstPlatform t, ?_⟩
  unfold detect_platform
  simp only [ht, ok_bind]
  rfl

/-- The `name` get on a status-like field (or its `{}` default) yields a
string. -/
theorem wfStatusLike_name (fs : List (String × JVal)) (k : String)
    (h : wfStatusLike fs k = true) :
    ∃ s, dictGet ((fs.lookup k).getD (.obj [])) "name" (.str "") = .ok (.str s) := by
  unfold wfStatusLike at h
  cases hk : fs.lookup k with
  | none => exact ⟨"", rfl⟩
  | some v =>
    rw [hk] at h
    have h' : wfNameStr v = true := h
    simp only [Option.getD_some]
    cases v with
    | obj es =>
      have h'' : (match es.lookup "name" with
                  | none => true
                  | some (.str _) => true
                  | some _ => false) = true := h'
      rw [dictGet_obj]
      cases hn : es.lookup "name" with
      | none => exact ⟨"", rfl⟩
      | some nv =>
        rw [hn] at h''
        simp only [Option.getD_some]
        cases nv with
        | str s => exact ⟨s, rfl⟩
        | null => simp at h''
        | bool b => simp at h''
        | num n => simp at h''
        | arr l => simp at h''
        | obj o => simp at h''
    | null => simp [wfNameStr] at h'
    | bool b => simp [wfNameStr] at h'
    | num n => simp [wfNameStr] at h'
    | str s => simp [wfNameStr] at h'
    | arr l => simp [wfNameStr] at h'

/-- Over a well-shaped issue the dashboard extraction never raises. -/
theorem dashInfoOf_ok (issue : JVal) (h : WFissue issue = true) :
    ∃ d, dashInfoOf issue = .ok d := by
  obtain ⟨ies, fs, hie, hfs, hw⟩ := WFissue_fields issue h
  obtain ⟨_, _, _, _, hstat, hit, _⟩ := wfFields_parts fs hw
  obtain ⟨s1, hs1⟩ := wfStatusLike_name fs "status" hstat
  obtain ⟨s2, hs2⟩ := wfStatusLike_name fs "issuetype" hit
  obtain ⟨p, hp⟩ := detect_platform_ok issue h
  refine ⟨{ status_name := s1, issue_type := s2, platform := p }, ?_⟩
  unfold dashInfoOf
  simp only [hfs, dictGet_obj, hs1, hs2, hp, ok_bind]
  rfl

/-- On a matrix whose rows are well-formed, the matched-and-counted
branch's mutation never raises for a tracked status. -/
theorem matrixBump_ok (matrix : List (String × List (String × Int))) (ap su : String)
    (hrows : ∀ pr ∈ matrix, RowOk pr.2) (hsu : su ∈ STATUSES) :
    ∃ m', matrixBump matrix ap su = .ok m' := by
  unfold matrixBump matrixBumpGo
  have hrow : ∃ row, alook strEq (if (alook strEq matrix ap).isSome then matrix
      else matrix ++ [(ap, zeroRow)]) ap = some row ∧ RowOk row := by
    by_cases hs : (alook strEq matrix ap).isSome = true
    · rw [if_pos hs]
      obtain ⟨row, hr⟩ := Option.isSome_iff_exists.mp hs
      refine ⟨row, hr, ?_⟩
      obtain ⟨p0, hp0, hv⟩ := alook_mem _ _ _ hr
      have := hrows p0 hp0
      rw [hv] at this
      exact this
    · rw [if_neg hs]
      refine ⟨zeroRow, ?_, zeroRow_ok⟩
      rw [alook_append_none _ _ _ (Option.not_isSome_iff_eq_none.mp hs)]
      simp [alook, strEq]
  obtain ⟨row, hr, hrok⟩ := hrow
  obtain ⟨c, hc⟩ := hrok.1 su hsu
  refine ⟨aset strEq (if (alook strEq matrix ap).isSome then matrix
    else matrix ++ [(ap, zeroRow)]) ap (aset strEq row su (c + 1)), ?_⟩
  simp only [hr, hc]

/-- From a well-formed matrix state, the dashboard state update never
raises. -/
theorem dashApply_ok (st : DashState) (d : DashInfo) (hw : MatrixWf st) :
    ∃ st', dashApply st d = .ok st' := by
  unfold dashApply
  simp only []
  by_cases hb : upperStr d.issue_type = "BUG"
  · rw [if_pos hb]
    by_cases hs : upperStr d.status_name ∈ STATUSES
    · rw [if_pos hs]
      obtain ⟨m', hm'⟩ := matrixBump_ok st.matrix (d.platform.getD "Unknown")
        (upperStr d.status_name) hw.2 hs
      rw [hm']
      exact ⟨_, rfl⟩
    · rw [if_neg hs]
      by_cases hp : d.platform.isSome = true
      · rw [if_pos hp]
        exact ⟨_, rfl⟩
      · rw [if_neg hp]
        by_cases hn : d.platform.isNone = true
        · rw [if_pos hn]
          exact ⟨_, rfl⟩
        · rw [if_neg hn]
          exact ⟨_, rfl⟩
  · rw [if_neg hb]
    exact ⟨_, rfl⟩

/-- The dashboard fold succeeds from any well-formed state over
well-shaped issues. -/
theorem dash_fold_ok :
    ∀ (issues : List JVal) (st : DashState), MatrixWf st →
      issues.all WFissue = true → ∃ st', List.foldlM dashStep st issues = .ok st' := by
  intro issues
  induction issues with
  | nil => intro st _ _; exact ⟨st, rfl⟩
  | cons a t ih =>
    intro st hwf hall
    rw [List.all_cons, Bool.and_eq_true] at hall
    obtain ⟨d, hd⟩ := dashInfoOf_ok a hall.1
    obtain ⟨st1, hst1⟩ := dashApply_ok st d hwf
    have hstep : dashStep st a = .ok st1 := by
      unfold dashStep
      rw [hd, ok_bind]
      exact hst1
    obtain ⟨st', hst'⟩ := ih st1 (dashApply_wf st d st1 hst1 hwf) hall.2
    exact ⟨st', by rw [foldlM_cons, hstep, ok_bind]; exact hst'⟩

/-- Over a list of well-shaped issues the Matrix aggregator never
raises. -/
theorem build_dashboard_ok (issues : List JVal) (h : issues.all WFissue = true) :
    ∃ m, build_dashboard_data issues = .ok m := by
  obtain ⟨st, hst⟩ := dash_fold_ok issues initDash initDash_wf h
  exact ⟨st.matrix, by unfold build_dashboard_data build_dashboard_state; rw [hst]; rfl⟩

/-- Membership in a collecting fold comes from one element's
contribution. -/
theorem mem_collect {κ : Type} (g : κ → List JVal) :
    ∀ (l : List κ) (c : JVal), c ∈ l.foldl (fun acc x => acc ++ g x) [] →
      ∃ x ∈ l, c ∈ g x := by
  intro l
  induction l with
  | nil => intro c hc; simp at hc
  | cons a t ih =>
    intro c hc
    simp only [List.foldl_cons, List.nil_append] at hc
    rw [foldl_collect] at hc
    rcases List.mem_append.mp hc with h | h
    · exact ⟨a, by simp, h⟩
    · obtain ⟨x, hx, hcx⟩ := ih c h
      exact ⟨x, by simp [hx], hcx⟩

/-- A candidate of a well-shaped scanned object is hashable. -/
theorem itemCandidates_hashable (it c : JVal) (hwf : wfCustomElem it = true)
    (hc : c ∈ itemCandidates it) : hashable c = true := by
  cases it with
  | obj es =>
    have hwf' : wfCustomObj es = true := hwf
    unfold wfCustomObj at hwf'
    rw [Bool.and_eq_true] at hwf'
    have hc' : c ∈ (if (es.lookup "name").isSome && (es.lookup "state").isSome then
        [(es.lookup "name").getD .null] else []) := hc
    by_cases hq : ((es.lookup "name").isSome && (es.lookup "state").isSome) = true
    · rw [if_pos hq] at hc'
      have hcc : c = (es.lookup "name").getD .null := by simpa using hc'
      rw [hcc]
      have h2 := hwf'.2
      rw [hq] at h2
      simpa using h2
    · rw [if_neg hq] at hc'
      simp at hc'
  | null => exact absurd hc (List.not_mem_nil c)
  | bool b => exact absurd hc (List.not_mem_nil c)
  | num n => exact absurd hc (List.not_mem_nil c)
  | str s => exact absurd hc (List.not_mem_nil c)
  | arr l => exact absurd hc (List.not_mem_nil c)

/-- A candidate of a well-shaped fields entry is hashable. -/
theorem entryCandidates_hashable (kv : String × JVal) (c : JVal)
    (hwf : (!(startsW kv.1 "customfield_" && truthy kv.2) || wfCustomVal kv.2) = true)
    (hc : c ∈ entryCandidates kv) : hashable c = true := by
  obtain ⟨k1, v⟩ := kv
  unfold entryCandidates at hc
  by_cases hcond : (startsW (k1, v).1 "customfield_" && truthy (k1, v).2) = true
  · rw [if_pos hcond] at hc
    rw [hcond] at hwf
    simp only [Bool.not_true, Bool.false_or] at hwf
    cases v with
    | arr items =>
      have hwf' : items.all wfCustomElem = true := hwf
      obtain ⟨it, hit, hcit⟩ := mem_collect itemCandidates items c hc
      rw [List.all_eq_true] at hwf'
      exact itemCandidates_hashable it c (hwf' it hit) hcit
    | obj es =>
      exact itemCandidates_hashable (.obj es) c hwf hc
    | null => exact absurd hc (List.not_mem_nil c)
    | bool b => exact absurd hc (List.not_mem_nil c)
    | num n => exact absurd hc (List.not_mem_nil c)
    | str s => exact absurd hc (List.not_mem_nil c)
  · rw [if_neg hcond] at hc
    simp at hc

/-- Every sprint-name candidate of well-shaped custom fields is
hashable. -/
theorem sprintCandidates_hashable (fs : List (String × JVal)) (h : wfCustoms fs = true)
    (c : JVal) (hc : c ∈ sprintCandidates fs) : hashable c = true := by
  unfold sprintCandidates at hc
  obtain ⟨kv, hkv, hckv⟩ := mem_collect entryCandidates fs c hc
  unfold wfCustoms at h
  rw [List.all_eq_true] at h
  exact entryCandidates_hashable kv c (h kv hkv) hckv

/-- A truthy resolved sprint name over well-shaped custom fields is
hashable. -/
theorem sprint_scan_hashable (fs : List (String × JVal)) (h : wfCustoms fs = true)
    (ht : truthy (sprint_scan fs) = true) : hashable (sprint_scan fs) = true := by
  rw [sprint_scan_eq_last] at ht ⊢
  cases hl : (sprintCandidates fs).getLast? with
  | none =>
    rw [hl] at ht
    simp [truthy] at ht
  | some c =>
    simp only [Option.getD_some]
    exact sprintCandidates_hashable fs h c (List.mem_of_getLast?_eq_some hl)

/-- The sprint-key guards never raise over well-shaped custom fields and
a string status name. -/
theorem sprint_guard_ok (fs : List (String × JVal)) (sns : String)
    (h : wfCustoms fs = true) : sprint_guard (sprint_scan fs) (.str sns) = .ok () := by
  unfold sprint_guard
  by_cases ht : truthy (sprint_scan fs) = true
  · rw [if_pos ht]
    have h1 : hguard (sprint_scan fs) = .ok () := by
      unfold hguard
      rw [if_pos (sprint_scan_hashable fs h ht)]
    rw [h1, ok_bind]
    rfl
  · rw [if_neg ht]
    rfl

/-- A well-shaped `priority` field yields a string (possibly the `None`
default). -/
theorem priority_of_str (fs : List (String × JVal)) (h : wfPerson fs "priority" "name" = true) :
    ∃ s, priority_of (.obj fs) = .ok (.str s) := by
  unfold priority_of
  simp only [dictGet_obj, ok_bind]
  unfold wfPerson at h
  cases hk : fs.lookup "priority" with
  | none =>
    simp only [Option.getD_none]
    rw [if_neg (by decide)]
    exact ⟨"None", rfl⟩
  | some v =>
    rw [hk] at h
    have h1 : wfPersonVal v "name" = true := h
    simp only [Option.getD_some]
    by_cases ht : truthy v = true
    · rw [if_pos ht]
      unfold wfPersonVal at h1
      rw [if_pos ht] at h1
      cases v with
      | obj es =>
        have h2 : wfSubStr es "name" = true := h1
        unfold wfSubStr at h2
        rw [dictGet_obj]
        cases hn : es.lookup "name" with
        | none => exact ⟨"None", rfl⟩
        | some nv =>
          rw [hn] at h2
          simp only [Option.getD_some]
          cases nv with
          | str s => exact ⟨s, rfl⟩
          | null => simp at h2
          | bool b => simp at h2
          | num n => simp at h2
          | arr l => simp at h2
          | obj o => simp at h2
      | null => simp at h1
      | bool b => simp at h1
      | num n => simp at h1
      | str s => simp at h1
      | arr l => simp at h1
    · rw [if_neg ht]
      exact ⟨"None", rfl⟩

/-- A well-shaped `assignee` field yields a string (possibly the
`Unassigned` default). -/
theorem assignee_of_str (fs : List (String × JVal))
    (h : wfPerson fs "assignee" "displayName" = true) :
    ∃ s, assignee_of (.obj fs) = .ok (.str s) := by
  unfold assignee_of
  simp only [dictGet_obj, ok_bind]
  unfold wfPerson at h
  cases hk : fs.lookup "assignee" with
  | none =>
    simp only [Option.getD_none]
    rw [if_neg (by decide)]
    exact ⟨"Unassigned", rfl⟩
  | some v =>
    rw [hk] at h
    have h1 : wfPersonVal v "displayName" = true := h
    simp only [Option.getD_some]
    by_cases ht : truthy v = true
    · rw [if_pos ht]
      unfold wfPersonVal at h1
      rw [if_pos ht] at h1
      cases v with
      | obj es =>
        have h2 : wfSubStr es "displayName" = true := h1
        unfold wfSubStr at h2
        rw [dictGet_obj]
        cases hn : es.lookup "displayName" with
        | none => exact ⟨"Unassigned", rfl⟩
        | some nv =>
          rw [hn] at h2
          simp only [Option.getD_some]
          cases nv with
          | str s => exact ⟨s, rfl⟩
          | null => simp at h2
          | bool b => simp at h2
          | num n => simp at h2
          | arr l => simp at h2
          | obj o => simp at h2
      | null => simp at h1
      | bool b => simp at h1
      | num n => simp at h1
      | str s => simp at h1
      | arr l => simp at h1
    · rw [if_neg ht]
      exact ⟨"Unassigned", rfl⟩

/-- A well-shaped date field truncates without raising. -/
theorem dateTrunc_ok (fs : List (String × JVal)) (k : String) (h : wfDate fs k = true) :
    ∃ r, dateTrunc ((fs.lookup k).getD (.str "")) = .ok r := by
  unfold dateTrunc
  unfold wfDate at h
  cases hk : fs.lookup k with
  | none =>
    simp only [Option.getD_none]
    rw [if_neg (by decide)]
    exact ⟨_, rfl⟩
  | some v =>
    rw [hk] at h
    have h' : (!truthy v || isStr v) = true := h
    simp only [Option.getD_some]
    by_cases ht : truthy v = true
    · rw [if_pos ht]
      rw [ht] at h'
      simp only [Bool.not_true, Bool.false_or] at h'
      cases v <;> simp [isStr] at h'
      exact ⟨_, rfl⟩
    · rw [if_neg ht]
      exact ⟨_, rfl⟩

/-- A well-shaped `fixVersions` field iterates to a list of well-shaped
fix-versions. -/
theorem fixversions_iter (fs : List (String × JVal)) (h : wfFix fs = true) :
    ∃ items, pyIter (if truthy ((fs.lookup "fixVersions").getD (.arr [])) then
        (fs.lookup "fixVersions").getD (.arr []) else .arr []) = .ok items ∧
      items.all wfFixElem = true := by
  unfold wfFix at h
  cases hk : fs.lookup "fixVersions" with
  | none =>
    simp only [Option.getD_none]
    rw [if_neg (by decide)]
    exact ⟨[], rfl, rfl⟩
  | some v =>
    rw [hk] at h
    have h1 : wfFixVal v = true := h
    simp only [Option.getD_some]
    by_cases ht : truthy v = true
    · rw [if_pos ht]
      unfold wfFixVal at h1
      rw [if_pos ht] at h1
      cases v with
      | arr items => exact ⟨items, rfl, h1⟩
      | null => simp at h1
      | bool b => simp at h1
      | num n => simp at h1
      | str s => simp at h1
      | obj o => simp at h1
    · rw [if_neg ht]
      exact ⟨[], rfl, rfl⟩

theorem fvn_ok_aux : ∀ (items : List JVal), items.all wfFixElem = true →
    ∀ acc : List JVal, acc.all isStr = true →
      ∃ ns, List.foldlM (fun acc v => do
          let n ← dictGet v "name" (.str "")
          pure (if truthy n then acc ++ [n] else acc)) acc items = .ok ns ∧
        ns.all isStr = true := by
  intro items
  induction items with
  | nil => intro _ acc hacc; exact ⟨acc, rfl, hacc⟩
  | cons a t ih =>
    intro h acc hacc
    rw [List.all_cons, Bool.and_eq_true] at h
    rw [foldlM_cons]
    cases a with
    | obj es =>
      have hwf : wfFixName es = true := h.1
      unfold wfFixName at hwf
      simp only [dictGet_obj, ok_bind, pure_bind]
      refine ih h.2 _ ?_
      by_cases ht : truthy ((es.lookup "name").getD (.str "")) = true
      · rw [if_pos ht]
        rw [List.all_append, Bool.and_eq_true]
        refine ⟨hacc, ?_⟩
        cases hn : es.lookup "name" with
        | none =>
          rw [hn] at ht
          simp [truthy] at ht
        | some nv0 =>
          rw [hn] at hwf ht
          have hwf2 : wfNameVal nv0 = true := hwf
          unfold wfNameVal at hwf2
          simp only [Option.getD_some] at ht ⊢
          rw [ht] at hwf2
          simp only [Bool.not_true, Bool.false_or] at hwf2
          simp [hwf2]
      · rw [if_neg ht]
        exact hacc
    | null => simp [wfFixElem] at h
    | bool b => simp [wfFixElem] at h
    | num n => simp [wfFixElem] at h
    | str s => simp [wfFixElem] at h
    | arr l => simp [wfFixElem] at h

/-- Over well-shaped fix-versions the name collection succeeds and every
collected name is a string. -/
theorem fvn_ok (items : List JVal) (h : items.all wfFixElem = true) :
    ∃ ns, fix_version_names_of items = .ok ns ∧ ns.all isStr = true := by
  unfold fix_version_names_of
  exact fvn_ok_aux items h [] rfl

/-- Joining string fix-version names never raises. -/
theorem fixversion_join_ok (ns : List JVal) (h : ns.all isStr = true) :
    ∃ jv, fixversion_join ns = .ok jv := by
  unfold fixversion_join
  by_cases he : ns.isEmpty = true
  · rw [if_pos he]
    exact ⟨_, rfl⟩
  · rw [if_neg he]
    obtain ⟨ss, hss⟩ := mapM_ok pyStrVal ns (fun a ha =>
      pyStrVal_isStr a (by rw [List.all_eq_true] at h; exact h a ha))
    refine ⟨.str (String.intercalate ", " ss), ?_⟩
    rw [hss, ok_bind]
    rfl

/-- The bug-only priority-key guard never raises on a string priority. -/
theorem bug_priority_guard_ok (tu : String) (s : String) :
    bug_priority_guard tu (.str s) = .ok () := by
  unfold bug_priority_guard
  split
  · rfl
  · rfl

/-- One release-loop extraction step never raises on a well-shaped
fix-version and a string status name. -/
theorem relPairStep_ok (sns : String) (fv : JVal) (hw : wfFixElem fv = true)
    (acc : List RelPair) : ∃ acc', relPairStep (.str sns) acc fv = .ok acc' := by
  cases fv with
  | obj es =>
    unfold relPairStep
    simp only [dictGet_obj, ok_bind]
    cases hn : es.lookup "name" with
    | none =>
      simp only [Option.getD_none]
      rw [if_neg (by decide)]
      exact ⟨acc, rfl⟩
    | some nv =>
      simp only [Option.getD_some]
      have hw' : (!truthy nv || isStr nv) = true := by
        have hw2 : wfFixName es = true := hw
        unfold wfFixName at hw2
        rw [hn] at hw2
        exact hw2
      by_cases htr : truthy nv = true
      · rw [if_pos htr]
        rw [htr] at hw'
        simp only [Bool.not_true, Bool.false_or] at hw'
        cases nv with
        | str s =>
          have hg : hguard (JVal.str s) = .ok () := rfl
          have hg2 : hguard (JVal.str sns) = .ok () := rfl
          refine ⟨acc ++
            [{ vname := JVal.str s,
               released := (es.lookup "released").getD (.bool false),
               releaseDate := (es.lookup "releaseDate").getD (.str ""),
               description := (es.lookup "description").getD (.str "") : RelPair }], ?_⟩
          simp only [hg, hg2, dictGet_obj, ok_bind]
          rfl
        | null => simp [isStr] at hw'
        | bool b => simp [isStr] at hw'
        | num n => simp [isStr] at hw'
        | arr l => simp [isStr] at hw'
        | obj o => simp [isStr] at hw'
      · rw [if_neg htr]
        exact ⟨acc, rfl⟩
  | null => simp [wfFixElem] at hw
  | bool b => simp [wfFixElem] at hw
  | num n => simp [wfFixElem] at hw
  | str s => simp [wfFixElem] at hw
  | arr l => simp [wfFixElem] at hw

/-- The release-pair extraction never raises over well-shaped
fix-versions. -/
theorem release_pairs_ok (sns : String) (items : List JVal)
    (h : items.all wfFixElem = true) :
    ∃ ps, release_pairs_of (.str sns) items = .ok ps := by
  unfold release_pairs_of
  refine foldlM_ok (relPairStep (.str sns)) items ?_ []
  intro s a ha
  rw [List.all_eq_true] at h
  exact relPairStep_ok sns a (h a ha) s

/-- Over a well-shaped issue the detail extraction never raises. -/
theorem detInfoOf_ok (issue : JVal) (h : WFissue issue = true) :
    ∃ d, detInfoOf issue = .ok d := by
  obtain ⟨ies, fs, hie, hfs, hw⟩ := WFissue_fields issue h
  obtain ⟨hlab, hcomp, hsum, hcust, hstat, hitype, hprio, hassf, hcr, hup, hdd, hfx⟩ :=
    wfFields_parts fs hw
  obtain ⟨its, hit⟩ := wfStatusLike_name fs "issuetype" hitype
  obtain ⟨sns, hst⟩ := wfStatusLike_name fs "status" hstat
  obtain ⟨ps, hps⟩ := priority_of_str fs hprio
  obtain ⟨as0, has0⟩ := assignee_of_str fs hassf
  obtain ⟨items, hiter, hitemswf⟩ := fixversions_iter fs hfx
  obtain ⟨ns, hns, hnsstr⟩ := fvn_ok items hitemswf
  obtain ⟨p, hp⟩ := detect_platform_ok issue h
  obtain ⟨c1, hc1⟩ := dateTrunc_ok fs "created" hcr
  obtain ⟨c2, hc2⟩ := dateTrunc_ok fs "updated" hup
  obtain ⟨c3, hc3⟩ := dateTrunc_ok fs "duedate" hdd
  obtain ⟨jv, hjv⟩ := fixversion_join_ok ns hnsstr
  obtain ⟨pairs, hpairs⟩ := release_pairs_ok sns items hitemswf
  subst hie
  have hfs' : ((ies.lookup "fields").getD (.obj [])) = .obj fs := by
    rw [dictGet_obj] at hfs
    exact (Except.ok.injEq _ _).mp hfs
  have hfit : dictItems (JVal.obj fs) = .ok fs := rfl
  have htu : pyUpper (JVal.str its) = .ok (upperStr its) := rfl
  have hg1 : hguard (JVal.str as0) = .ok () := rfl
  have hg2 : bug_priority_guard (upperStr its) (JVal.str ps) = .ok () :=
    bug_priority_guard_ok _ _
  have hg3 : sprint_guard (sprint_scan fs) (JVal.str sns) = .ok () :=
    sprint_guard_ok fs sns hcust
  refine ⟨dRec ((ies.lookup "key").getD (JVal.str "")) (JVal.str its) (JVal.str sns)
    ((fs.lookup "summary").getD (JVal.str "")) (JVal.str ps) (JVal.str as0)
    items ns p fs c1 c2 c3 jv (upperStr its) pairs, ?_⟩
  unfold detInfoOf
  simp only [dictGet_obj, hfs', hit, hst, hps, has0, hiter, hns, hp, hfit,
    hc1, hc2, hc3, hjv, htu, hg1, hg2, hg3, hpairs, ok_bind]
  rfl

/-- The detail fold succeeds from any state over well-shaped issues. -/
theorem det_fold_ok :
    ∀ (issues : List JVal), issues.all WFissue = true →
      ∀ st : DetState, ∃ st', List.foldlM detStep st issues = .ok st' := by
  intro issues
  induction issues with
  | nil => intro _ st; exact ⟨st, rfl⟩
  | cons a t ih =>
    intro h st
    rw [List.all_cons, Bool.and_eq_true] at h
    obtain ⟨d, hd⟩ := detInfoOf_ok a h.1
    obtain ⟨st', hst'⟩ := ih h.2 (detApply st d)
    refine ⟨st', ?_⟩
    rw [foldlM_cons]
    have hstep : detStep st a = .ok (detApply st d) := by
      unfold detStep
      rw [hd, ok_bind]
      rfl
    rw [hstep, ok_bind]
    exact hst'

/-- Over a list of well-shaped issues the Detail Aggregator never
raises. -/
theorem build_detailed_ok (issues : List JVal) (h : issues.all WFissue = true) :
    ∃ st, build_detailed_data issues = .ok st := by
  unfold build_detailed_data
  exact det_fold_ok issues h initDet

/-- Inversion of a successful detail extraction onto the `priority` and
`assignee` computations over the issue's `fields` dict. -/
theorem detInfoOf_defaults (issue : JVal) (d : DetInfo) (fs : List (String × JVal))
    (h : detInfoOf issue = .ok d)
    (hfs : dictGet issue "fields" (.obj []) = .ok (.obj fs)) :
    priority_of (.obj fs) = .ok d.priority ∧ assignee_of (.obj fs) = .ok d.assignee := by
  unfold detInfoOf at h
  obtain ⟨fields, hfields, h⟩ := bind_ok_inv h
  obtain ⟨tv, htv, h⟩ := bind_ok_inv h
  obtain ⟨issue_type, hit, h⟩ := bind_ok_inv h
  obtain ⟨sv, hsv, h⟩ := bind_ok_inv h
  obtain ⟨status_name, hsn, h⟩ := bind_ok_inv h
  obtain ⟨summary, hsum, h⟩ := bind_ok_inv h
  obtain ⟨key, hkey, h⟩ := bind_ok_inv h
  obtain ⟨priority, hpri, h⟩ := bind_ok_inv h
  obtain ⟨assignee, hass, h⟩ := bind_ok_inv h
  obtain ⟨created, hcr, h⟩ := bind_ok_inv h
  obtain ⟨updated, hup, h⟩ := bind_ok_inv h
  obtain ⟨duedate, hdd, h⟩ := bind_ok_inv h
  obtain ⟨fvv, hfvv, h⟩ := bind_ok_inv h
  obtain ⟨fix_versions, hfvs, h⟩ := bind_ok_inv h
  obtain ⟨fix_version_names, hfvn, h⟩ := bind_ok_inv h
  obtain ⟨platform, hplat, h⟩ := bind_ok_inv h
  obtain ⟨fitems, hfit, h⟩ := bind_ok_inv h
  obtain ⟨createdT, hcrT, h⟩ := bind_ok_inv h
  obtain ⟨updatedT, hupT, h⟩ := bind_ok_inv h
  obtain ⟨duedateT, hddT, h⟩ := bind_ok_inv h
  obtain ⟨fixversion, hfx, h⟩ := bind_ok_inv h
  obtain ⟨type_upper, htu, h⟩ := bind_ok_inv h
  obtain ⟨g1, hg1, h⟩ := bind_ok_inv h
  obtain ⟨g2, hg2, h⟩ := bind_ok_inv h
  obtain ⟨g3, hg3, h⟩ := bind_ok_inv h
  obtain ⟨release_pairs, hrp, h⟩ := bind_ok_inv h
  have hd : d = dRec key issue_type status_name summary priority assignee fix_versions
      fix_version_names platform fitems createdT updatedT duedateT fixversion
      type_upper release_pairs := by
    have h' : Except.ok (dRec key issue_type status_name summary priority assignee fix_versions
      fix_version_names platform fitems createdT updatedT duedateT fixversion
      type_upper release_pairs : DetInfo) = .ok d := h
    exact (Except.ok.injEq _ _).mp h' |>.symm
  subst hd
  have hf2 : fields = .obj fs := by
    rw [hfields] at hfs
    exact (Except.ok.injEq _ _).mp hfs
  subst hf2
  constructor
  · simpa [dRec] using hpri
  · simpa [dRec] using hass

/-- An absent or falsy `priority` field defaults to the string `None`. -/
theorem priority_of_default (fs : List (String × JVal))
    (h : truthy ((fs.lookup "priority").getD .null) = false) :
    priority_of (.obj fs) = .ok (.str "None") := by
  unfold priority_of
  simp only [dictGet_obj, ok_bind]
  rw [if_neg (by simp [h])]
  rfl

/-- An absent or falsy `assignee` field defaults to the string
`Unassigned`. -/
theorem assignee_of_default (fs : List (String × JVal))
    (h : truthy ((fs.lookup "assignee").getD .null) = false) :
    assignee_of (.obj fs) = .ok (.str "Unassigned") := by
  unfold assignee_of
  simp only [dictGet_obj, ok_bind]
  rw [if_neg (by simp [h])]
  rfl

/-- An issue whose `labels` field is present but `null`: iterating it
raises `TypeError`. -/
def issueC4 : JVal := .obj [("fields", .obj [("labels", JVal.null)])]

/-- Counterexample to C4 as stated: the pipeline is not total over
arbitrary issue records — a present-but-malformed field (here a `null`
`labels` list) makes `detect_platform`, and with it both aggregators,
raise a `TypeError` instead of defaulting. -/
theorem C4_counterexample :
    detect_platform issueC4 = .error "TypeError: not iterable" ∧
    build_dashboard_data [issueC4] = .error "TypeError: not iterable" ∧
    build_detailed_data [issueC4] = .error "TypeError: not iterable" := by
  exact ⟨by decide, by decide, by decide⟩

/-- C4 (amended): over well-shaped issue records — dicts whose present
fields have the shapes the code handles — `detect_platform`,
`build_dashboard_data` and `build_detailed_data` never raise; absent
fields are absorbed by defaulting: a missing or falsy `assignee` yields
`Unassigned`, a missing or falsy `priority` yields `None`, and an
unclassified platform is stored as `Unknown`.  (As originally stated —
totality over arbitrary records — the claim is refuted by the
`labels: null` counterexample.) -/
theorem C4_totality_defaults :
    (∀ issue, WFissue issue = true →
      (∃ p, detect_platform issue = .ok p) ∧ ∃ d, detInfoOf issue = .ok d) ∧
    (∀ issues, issues.all WFissue = true →
      (∃ m, build_dashboard_data issues = .ok m) ∧
      ∃ st, build_detailed_data issues = .ok st) ∧
    (∀ issue d fs, detInfoOf issue = .ok d →
      dictGet issue "fields" (.obj []) = .ok (.obj fs) →
      (truthy ((fs.lookup "assignee").getD .null) = false →
        d.assignee = .str "Unassigned" ∧ d.item.assignee = .str "Unassigned") ∧
      (truthy ((fs.lookup "priority").getD .null) = false →
        d.priority = .str "None" ∧ d.item.priority = .str "None") ∧
      (d.platform = none → d.item.platform = "Unknown")) := by
  refine ⟨?_, ?_, ?_⟩
  · intro issue h
    exact ⟨detect_platform_ok issue h, detInfoOf_ok issue h⟩
  · intro issues h
    exact ⟨build_dashboard_ok issues h, build_detailed_ok issues h⟩
  · intro issue d fs h hfs
    obtain ⟨hpri, hass⟩ := detInfoOf_defaults issue d fs h hfs
    obtain ⟨_, _, _, hia, hip, hipl, _⟩ := detInfoOf_spec issue d h
    refine ⟨?_, ?_, ?_⟩
    · intro hfa
      rw [assignee_of_default fs hfa] at hass
      have hda : d.assignee = .str "Unassigned" := ((Except.ok.injEq _ _).mp hass).symm
      exact ⟨hda, by rw [hia]; exact hda⟩
    · intro hfp
      rw [priority_of_default fs hfp] at hpri
      have hdp : d.priority = .str "None" := ((Except.ok.injEq _ _).mp hpri).symm
      exact ⟨hdp, by rw [hip]; exact hdp⟩
    · intro hpn
      rw [hipl, hpn]
      rfl

/-- Witness for C4 at concrete inputs: `issueW3` is well-shaped and both
extractions succeed on it; and on the empty issue the `Unassigned`
default is observable through the amended theorem. -/
theorem C4_totality_defaults_witness :
    (WFissue issueW3 = true ∧ ∃ d, detInfoOf issueW3 = .ok d) ∧
    ([issueW3].all WFissue = true ∧ ∃ st, build_detailed_data [issueW3] = .ok st) ∧
    (detInfoOf (JVal.obj []) = .ok dW8 ∧
      truthy ((([] : List (String × JVal)).lookup "assignee").getD .null) = false ∧
      dW8.assignee = .str "Unassigned") :=
  ⟨⟨by decide, (C4_totality_defaults.1 issueW3 (by decide)).2⟩,
   ⟨by decide, (C4_totality_defaults.2.1 [issueW3] (by decide)).2⟩,
   ⟨by decide, by decide,
    ((C4_totality_defaults.2.2 (JVal.obj []) dW8 [] (by decide) (by decide)).1
      (by decide)).1⟩⟩

end VfDash

namespace VfDash

/-- A tiny sanity check of the substring test. -/
example : strContains "ANDROID TV CRASH" "ANDROID TV" = true := by decide
example : strContains "ANDROID TV CRASH" "ATV" = false := by decide
example : truthy (.str "") = false := by rfl
example :
    detect_platform (.obj [("fields", .obj [("summary", .str "Android TV crash")])]) =
      .ok (some "ATV") := by decide
example :
    detect_platform (.obj [("fields", .obj [("labels", .arr [.str "ios"])])]) =
      .ok (some "IOS") := by decide
example :
    detect_platform (.obj [("fields", .obj [("labels", JVal.null)])]) =
      .error "TypeError: not iterable" := by rfl

example :
    (build_dashboard_state
      [.obj [("fields", .obj [("issuetype", .obj [("name", .str "Bug")]),
                              ("status", .obj [("name", .str "Open")]),
                              ("labels", .arr [.str "ios"])])]]).map
        (fun st => ((alook strEq st.matrix "IOS").getD []).lookup "OPEN") =
    .ok (some 1) := by decide

example :
    (build_dashboard_state
      [.obj [("fields", .obj [("issuetype", .obj [("name", .str "Bug")]),
                              ("status", .obj [("name", .str "Open")]),
                              ("labels", .arr [.str "ios"])])]]).map
        (fun st => (st.total_bugs, st.matched_counted, st.unmatched_platforms, st.unmatched_status)) =
    .ok (1, 1, 0, 0) := by decide

example :
    (build_detailed_data
      [.obj [("key", .str "VZY-1"),
             ("fields", .obj [("issuetype", .obj [("name", .str "Bug")]),
                              ("status", .obj [("name", .str "Open")]),
                              ("labels", .arr [.str "ios"]),
                              ("customfield_10020",
                               .arr [.obj [("name", .str "Sprint 7"), ("state", .str "active")]])])]]).map
      (fun st => (st.bugs.length, st.tasks.length,
                  (alook beqJ st.sprints (.str "Sprint 7")).map (fun b => b.total),
                  (alook beqJ st.assignee_workload (.str "Unassigned")).map (fun w => w.total),
                  alook beqJ st.priority_breakdown (.str "None"))) =
    .ok (1, 0, some 1, some 1, some 1) := by decide

example :
    (build_detailed_data
      [.obj [("key", .str "VZY-2"),
             ("fields", .obj [("issuetype", .obj [("name", .str "Task")]),
                              ("status", .obj [("name", .str "Closed")]),
                              ("fixVersions",
                               .arr [.obj [("name", .str "R1"), ("released", .bool true)],
                                     .obj [("name", .str "")]])])]]).map
      (fun st => (st.tasks.length, st.releases.length,
                  (alook beqJ st.releases (.str "R1")).map
                    (fun b => (b.total, b.released, b.issues.length)))) =
    .ok (1, 1, some (1, .bool true, 1)) := by decide

end VfDash

